import Mathlib

/-!
# Round-robin scheduler plug-in: process queue and scheduling step

A shallow embedding of `src/module/proc_queue.c` (the process queue guarded by
one semaphore), of `src/module/proc_sched.c` (the periodic round-robin step
built on it) and of the write handler of `src/module/proc_set.c` (the
registration file), followed by theorems about them.

Conventions of the embedding.

* A C `int` process id is an `Int`; no arithmetic is done on ids, they are
  only compared and stored.
* The linked list headed by `top.list` is a `List proc`, head of the list first.
* The kernel's process table is not part of the repository.  The lookup
  `pid_task(find_vpid(pid), PIDTYPE_PID)` is a parameter `alive : Int → Bool`
  (`true`: a task is found).
* Every call that leaves the module towards the process facility is recorded,
  oldest first, in a trace of `Event`s.
* The outcome of `kmalloc` and of `down_interruptible` cannot be computed from
  the program state; every function that calls one of them takes the outcome
  as a `Bool` argument (`true`: the call failed).
* `printk` output is not modelled.
* The kernel's `kstrtol` is not part of the repository; the write handler takes
  its outcome as an argument.  The conversion of a `long` to the 32-bit `int`
  parameter of `add_process_to_queue` keeps the value modulo `2^32`.
-/

namespace SchedPlugin

/-! ## Constants and data types (`proc_queue.c`, lines 21-45) -/

/-- Sentinel id meaning "all registered pids" (`#define ALL_REG_PIDS (-100)`). -/
def ALL_REG_PIDS : Int := -100

/-- Sentinel id meaning "no process" (`#define INVALID_PID (-1)`). -/
def INVALID_PID : Int := -1

/-- Kernel error number `ERESTARTSYS`. -/
def ERESTARTSYS : Int := 512

/-- Kernel error number `ENOMEM`. -/
def ENOMEM : Int := 12

/-- Process states (`enum process_state`). -/
inductive process_state where
  | S_CREATED
  | S_RUNNING
  | S_WAITING
  | S_BLOCKING
  | S_TERMINATED
  deriving DecidableEq, Repr

/-- Integer value of a process state, as declared in the enumeration. -/
def process_state.toInt : process_state → Int
  | .S_CREATED => 0
  | .S_RUNNING => 1
  | .S_WAITING => 2
  | .S_BLOCKING => 3
  | .S_TERMINATED => 4

/-- Task status codes (`enum task_status_code`). -/
inductive task_status_code where
  | TS_EXIST
  | TS_TERMINATED
  deriving DecidableEq, Repr

/-- One node of the process queue (`struct proc` without its list pointers). -/
structure proc where
  pid : Int
  state : process_state
  deriving DecidableEq, Repr

/-- The two signals the queue module sends. -/
inductive Signal where
  | SIGCONT
  | SIGSTOP
  deriving DecidableEq, Repr

/-- Calls made by the queue module to the process facility. -/
inductive Event where
  /-- Call `is_task_exists(pid)`: a liveness probe. -/
  | probe (pid : Int)
  /-- Call `task_status_change(pid, eState)`: a state directive. -/
  | apply (pid : Int) (eState : process_state)
  /-- Call `kill_pid(task_pid(..), sig, 1)` on the task found for `pid`. -/
  | kill (pid : Int) (sig : Signal)
  deriving DecidableEq, Repr

/-- Global state of the queue module: the list headed by `top.list`, and the
calls made so far to the process facility (oldest first). -/
structure World where
  queue : List proc
  trace : List Event
  deriving DecidableEq, Repr

/-! ## Process facility (`proc_queue.c`, lines 322-365) -/

/-- Function `is_task_exists`: result and the calls it makes. -/
def is_task_exists (alive : Int → Bool) (pid : Int) : task_status_code × List Event :=
  if alive pid then (.TS_EXIST, [.probe pid]) else (.TS_TERMINATED, [.probe pid])

/-- Function `task_status_change`: result and the calls it makes. -/
def task_status_change (alive : Int → Bool) (pid : Int) (eState : process_state) :
    task_status_code × List Event :=
  if alive pid then
    if eState = .S_RUNNING then (.TS_EXIST, [.apply pid eState, .kill pid .SIGCONT])
    else if eState = .S_WAITING then (.TS_EXIST, [.apply pid eState, .kill pid .SIGSTOP])
    else if eState = .S_BLOCKING then (.TS_EXIST, [.apply pid eState])
    else if eState = .S_TERMINATED then (.TS_EXIST, [.apply pid eState])
    else (.TS_EXIST, [.apply pid eState])
  else (.TS_TERMINATED, [.apply pid eState])

/-! ## Queue operations (`proc_queue.c`, lines 62-320) -/

/-- Function `init_process_queue`: the empty list. -/
def init_process_queue (w : World) : Int × World :=
  (0, { w with queue := [] })

/-- Function `release_process_queue`: every node is unlinked and freed. -/
def release_process_queue (w : World) : Int × World :=
  (0, { w with queue := [] })

/-- Function `add_process_to_queue`. -/
def add_process_to_queue (alive : Int → Bool) (kmalloc_null down_intr : Bool)
    (pid : Int) (w : World) : Int × World :=
  if kmalloc_null then (-ENOMEM, w)
  else
    let new_process : proc := { pid := pid, state := .S_WAITING }
    let ev := (task_status_change alive new_process.pid new_process.state).2
    if down_intr then (-ERESTARTSYS, { w with trace := w.trace ++ ev })
    else (0, { queue := w.queue ++ [new_process], trace := w.trace ++ ev })

/-- Loop of `remove_process_from_queue`. -/
def remove_process_loop (pid : Int) : List proc → List proc
  | [] => []
  | node :: rest =>
    if node.pid = pid then remove_process_loop pid rest
    else node :: remove_process_loop pid rest

/-- Function `remove_process_from_queue`. -/
def remove_process_from_queue (down_intr : Bool) (pid : Int) (w : World) : Int × World :=
  if down_intr then (-ERESTARTSYS, w)
  else (0, { w with queue := remove_process_loop pid w.queue })

/-- Loop of `remove_terminated_processes_from_queue`. -/
def remove_terminated_loop : List proc → List proc
  | [] => []
  | node :: rest =>
    if node.state = .S_TERMINATED then remove_terminated_loop rest
    else node :: remove_terminated_loop rest

/-- Function `remove_terminated_processes_from_queue`. -/
def remove_terminated_processes_from_queue (down_intr : Bool) (w : World) : Int × World :=
  if down_intr then (-ERESTARTSYS, w)
  else (0, { w with queue := remove_terminated_loop w.queue })

/-- Loop of `change_process_state_in_queue` when `pid == ALL_REG_PIDS`:
the new list and the calls made. -/
def change_all_loop (alive : Int → Bool) (changeState : process_state) :
    List proc → List proc × List Event
  | [] => ([], [])
  | node :: rest =>
    let r := task_status_change alive node.pid changeState
    let node1 : proc :=
      if r.1 = .TS_TERMINATED then { node with state := .S_TERMINATED }
      else { node with state := changeState }
    let out := change_all_loop alive changeState rest
    (node1 :: out.1, r.2 ++ out.2)

/-- Loop of `change_process_state_in_queue` for one pid.  The second argument
is the local `ret_process_change_status`: `none` while it has never been
assigned.  Returns the new list, the local, and the calls made. -/
def change_one_loop (alive : Int → Bool) (pid : Int) (changeState : process_state) :
    List proc → Option process_state → List proc × Option process_state × List Event
  | [], ret => ([], ret, [])
  | node :: rest, ret =>
    if node.pid = pid then
      let r := task_status_change alive node.pid changeState
      if r.1 = .TS_TERMINATED then
        let out := change_one_loop alive pid changeState rest (some .S_TERMINATED)
        ({ node with state := .S_TERMINATED } :: out.1, out.2.1, r.2 ++ out.2.2)
      else
        let out := change_one_loop alive pid changeState rest ret
        ({ node with state := changeState } :: out.1, out.2.1, r.2 ++ out.2.2)
    else
      let r := is_task_exists alive node.pid
      if r.1 = .TS_TERMINATED then
        let out := change_one_loop alive pid changeState rest ret
        ({ node with state := .S_TERMINATED } :: out.1, out.2.1, r.2 ++ out.2.2)
      else
        let out := change_one_loop alive pid changeState rest ret
        (node :: out.1, out.2.1, r.2 ++ out.2.2)

/-- Function `change_process_state_in_queue`.  The returned value is `none`
when the function returns its local `ret_process_change_status` without ever
having assigned it (the C value is then indeterminate). -/
def change_process_state_in_queue (alive : Int → Bool) (down_intr : Bool)
    (pid : Int) (changeState : process_state) (w : World) : Option Int × World :=
  if down_intr then (some (-ERESTARTSYS), w)
  else if pid = ALL_REG_PIDS then
    let out := change_all_loop alive changeState w.queue
    (none, { queue := out.1, trace := w.trace ++ out.2 })
  else
    let out := change_one_loop alive pid changeState w.queue none
    (out.2.1.map process_state.toInt, { queue := out.1, trace := w.trace ++ out.2.2 })

/-- Function `print_process_queue`: only prints, under the lock. -/
def print_process_queue (down_intr : Bool) (w : World) : Int × World :=
  if down_intr then (-ERESTARTSYS, w) else (0, w)

/-- Loop of `get_first_process_in_queue`; the second argument is the local
`pid`.  The liveness probe is the right operand of `&&`, so it is made only
while `pid == INVALID_PID`. -/
def get_first_loop (alive : Int → Bool) : List proc → Int → Int × List Event
  | [], pid => (pid, [])
  | tmp :: rest, pid =>
    if pid = INVALID_PID then
      let r := is_task_exists alive tmp.pid
      if r.1 = .TS_EXIST then
        let out := get_first_loop alive rest tmp.pid
        (out.1, r.2 ++ out.2)
      else
        let out := get_first_loop alive rest pid
        (out.1, r.2 ++ out.2)
    else get_first_loop alive rest pid

/-- Function `get_first_process_in_queue`. -/
def get_first_process_in_queue (alive : Int → Bool) (down_intr : Bool) (w : World) :
    Int × World :=
  if down_intr then (-ERESTARTSYS, w)
  else
    let out := get_first_loop alive w.queue INVALID_PID
    (out.1, { w with trace := w.trace ++ out.2 })

/-! ## Scheduler (`proc_sched.c`) -/

/-- Outcome of `kmalloc` and of each `down_interruptible` reached by one run
of `static_round_robin_scheduling` (`true`: the call failed). -/
structure Faults where
  reap_down : Bool
  add_kmalloc : Bool
  add_down : Bool
  first_down : Bool
  change_down : Bool
  remove_down : Bool
  print_down : Bool
  deriving DecidableEq, Repr

/-- No allocation failure and no interrupted lock acquisition. -/
def no_faults : Faults :=
  { reap_down := false, add_kmalloc := false, add_down := false, first_down := false,
    change_down := false, remove_down := false, print_down := false }

/-- State seen by the scheduler module: the queue module's state and the
static `current_pid` (initially `-1`). -/
structure Sched where
  world : World
  current_pid : Int
  deriving DecidableEq, Repr

/-- Function `static_round_robin_scheduling`: one rotation step.  Every return
value of the queue functions is dropped except that of
`get_first_process_in_queue`, which is stored in `current_pid`. -/
def static_round_robin_scheduling (alive : Int → Bool) (f : Faults) (s : Sched) :
    Int × Sched :=
  let w1 := (remove_terminated_processes_from_queue f.reap_down s.world).2
  let w2 :=
    if s.current_pid ≠ -1 then
      (add_process_to_queue alive f.add_kmalloc f.add_down s.current_pid w1).2
    else w1
  let r := get_first_process_in_queue alive f.first_down w2
  let current_pid := r.1
  let w3 := r.2
  let w5 :=
    if current_pid ≠ -1 then
      let w4 := (change_process_state_in_queue alive f.change_down current_pid
        .S_RUNNING w3).2
      (remove_process_from_queue f.remove_down current_pid w4).2
    else w3
  let w6 :=
    if current_pid ≠ -1 then (print_process_queue f.print_down w5).2 else w5
  (0, { world := w6, current_pid := current_pid })

/-- Function `context_switch`: one rotation step, then the delayed work is
queued again with delay `time_quantum * HZ` when `flag == 0`.  The second
component is the delay of the work queued, if any. -/
def context_switch (alive : Int → Bool) (f : Faults) (flag time_quantum HZ : Int)
    (s : Sched) : Sched × Option Int :=
  let s1 := (static_round_robin_scheduling alive f s).2
  if flag = 0 then (s1, some (time_quantum * HZ)) else (s1, none)

/-- Run `n` rotation steps in a row, none of them hit by a failure. -/
def run_steps (alive : Int → Bool) : Nat → Sched → Sched
  | 0, s => s
  | n + 1, s => run_steps alive n (static_round_robin_scheduling alive no_faults s).2

/-! ## Registration file (`proc_set.c`, lines 63-94) -/

/-- Kernel error number `EINVAL`. -/
def EINVAL : Int := 22

/-- Conversion of a `long` value to `int` at the call
`add_process_to_queue(new_proc_id)`: the value modulo `2^32`, in the range
`-2^31 .. 2^31 - 1`. -/
def long_to_int (n : Int) : Int :=
  (n + 2 ^ 31) % 2 ^ 32 - 2 ^ 31

/-- Function `process_sched_add_module_write`.  The argument `parsed` is the
outcome of `kstrtol(buf, BASE_10, &new_proc_id)`: `none` when it returns a
negative error code, `some n` when it returns 0 and stores the `long` value
`n`.  The argument `count` is the number of bytes handed to the handler. -/
def process_sched_add_module_write (alive : Int → Bool) (kmalloc_null down_intr : Bool)
    (parsed : Option Int) (count : Int) (w : World) : Int × World :=
  match parsed with
  | none => (-EINVAL, w)
  | some new_proc_id =>
    let r := add_process_to_queue alive kmalloc_null down_intr (long_to_int new_proc_id) w
    if r.1 ≠ 0 then (-ENOMEM, r.2) else (count, r.2)

/-! ## Notions used to state the properties -/

/-- The state directives of a trace: every call except the liveness probes. -/
def directives (tr : List Event) : List Event :=
  tr.filter (fun e => match e with
    | .probe _ => false
    | _ => true)

/-- The process facility never finds a task for a negative id. -/
def valid_oracle (alive : Int → Bool) : Prop :=
  ∀ p : Int, p < 0 → alive p = false

/-- Ids of the descriptors of a queue, in queue order. -/
def pids (q : List proc) : List Int :=
  q.map proc.pid

/-- A live entry: its process is alive and it is not marked terminated. -/
def live (alive : Int → Bool) (e : proc) : Prop :=
  alive e.pid = true ∧ e.state ≠ .S_TERMINATED

/-- Id of the earliest descriptor whose process is alive, `INVALID_PID` if
there is none. -/
def first_alive (alive : Int → Bool) (q : List proc) : Int :=
  match q.find? (fun e => alive e.pid) with
  | some e => e.pid
  | none => INVALID_PID

/-- What a single-id state update is expected to leave of one descriptor:
the target takes the requested state if alive, any dead process is marked
terminated, an alive non-target is untouched. -/
def updated (alive : Int → Bool) (t : Int) (s : process_state) (e : proc) : proc :=
  if e.pid = t then { e with state := if alive e.pid then s else .S_TERMINATED }
  else if alive e.pid then e
  else { e with state := .S_TERMINATED }

/-- Calls expected from a single-id state update for one descriptor: a state
directive for the target, a liveness probe for any other. -/
def calls_for (alive : Int → Bool) (t : Int) (s : process_state) (e : proc) : List Event :=
  if e.pid = t then (task_status_change alive e.pid s).2 else [.probe e.pid]

/-- What a bulk state update is expected to leave of one descriptor. -/
def updated_all (alive : Int → Bool) (s : process_state) (e : proc) : proc :=
  { e with state := if alive e.pid then s else .S_TERMINATED }

/-- The signal that goes with a requested state, if any. -/
def signal_of : process_state → Option Signal
  | .S_RUNNING => some .SIGCONT
  | .S_WAITING => some .SIGSTOP
  | _ => none

/-- The queue left by the first two sub-steps of a rotation that meets no
failure: terminated entries dropped, then the current id appended as waiting. -/
def demoted (s : Sched) : List proc :=
  s.world.queue.filter (fun e => decide (e.state ≠ .S_TERMINATED)) ++
    (if s.current_pid ≠ -1 then [{ pid := s.current_pid, state := .S_WAITING }] else [])

/-- The id `p` is tracked and live in the scheduler state `s`: its process is
alive, and it is the current id or the id of a descriptor that is not marked
terminated. -/
def tracked_live (alive : Int → Bool) (s : Sched) (p : Int) : Prop :=
  alive p = true ∧
    (s.current_pid = p ∨ ∃ e ∈ s.world.queue, e.pid = p ∧ e.state ≠ .S_TERMINATED)

/-- The queue a rotation step hands to `get_first_process_in_queue`, given
which of the earlier calls failed: a failed call changes nothing. -/
def demoted_under (f : Faults) (s : Sched) : List proc :=
  (if f.reap_down then s.world.queue
   else s.world.queue.filter (fun e => decide (e.state ≠ .S_TERMINATED))) ++
    (if s.current_pid ≠ -1 ∧ f.add_kmalloc = false ∧ f.add_down = false then
      [{ pid := s.current_pid, state := .S_WAITING }]
     else [])

/-- States reachable from the empty registry with no current id, by
registrations and by rotation steps that meet no failure, under any valid
process facility. -/
inductive Reachable : Sched → Prop where
  | init (tr : List Event) : Reachable { world := { queue := [], trace := tr }, current_pid := -1 }
  | enqueue (alive : Int → Bool) (hv : valid_oracle alive) (pid : Int) (s : Sched) :
      Reachable s →
      Reachable { s with world := (add_process_to_queue alive false false pid s.world).2 }
  | step (alive : Int → Bool) (hv : valid_oracle alive) (s : Sched) :
      Reachable s → Reachable (static_round_robin_scheduling alive no_faults s).2

/-! ## Auxiliary facts about the loops -/

theorem remove_process_loop_eq_filter (pid : Int) (q : List proc) :
    remove_process_loop pid q = q.filter (fun e => decide (e.pid ≠ pid)) := by
  induction q with
  | nil => rfl
  | cons node rest ih =>
    by_cases h : node.pid = pid
    · simp [remove_process_loop, h, ih]
    · simp [remove_process_loop, h, ih]

theorem remove_terminated_loop_eq_filter (q : List proc) :
    remove_terminated_loop q = q.filter (fun e => decide (e.state ≠ .S_TERMINATED)) := by
  induction q with
  | nil => rfl
  | cons node rest ih =>
    by_cases h : node.state = .S_TERMINATED
    · simp [remove_terminated_loop, h, ih]
    · simp [remove_terminated_loop, h, ih]

/-! ## Properties of the queue operations -/

/-- C6: once the lock is held, `remove_process_from_queue pid` returns 0 and
leaves exactly the descriptors whose id differs from `pid`, in their order and
with their state (every occurrence of `pid` is removed); nothing changes when
`pid` is not registered, and no call is made to the process facility. -/
theorem remove_process_from_queue_removes_all (pid : Int) (w : World) :
    (remove_process_from_queue false pid w).1 = 0 ∧
    (remove_process_from_queue false pid w).2.queue
      = w.queue.filter (fun e => decide (e.pid ≠ pid)) ∧
    pid ∉ pids (remove_process_from_queue false pid w).2.queue ∧
    (pid ∉ pids w.queue → (remove_process_from_queue false pid w).2.queue = w.queue) ∧
    (remove_process_from_queue false pid w).2.trace = w.trace := by
  refine ⟨rfl, ?_, ?_, ?_, rfl⟩
  · simp [remove_process_from_queue, remove_process_loop_eq_filter]
  · simp [remove_process_from_queue, remove_process_loop_eq_filter, pids]
  · intro h
    simp only [remove_process_from_queue, remove_process_loop_eq_filter]
    simp only [Bool.false_eq_true, if_false]
    apply List.filter_eq_self.mpr
    intro e he
    simp only [decide_eq_true_eq]
    intro hp
    exact h (by simp only [pids, List.mem_map]; exact ⟨e, he, hp⟩)

/-- C6, at a queue that registers the id 7 twice, and at an absent id. -/
theorem remove_process_from_queue_removes_all_witness :
    (remove_process_from_queue false 7
        { queue := [⟨7, .S_WAITING⟩, ⟨8, .S_RUNNING⟩, ⟨7, .S_BLOCKING⟩], trace := [] }).2.queue
      = [⟨8, .S_RUNNING⟩] ∧
    (remove_process_from_queue false 9
        { queue := [⟨7, .S_WAITING⟩, ⟨8, .S_RUNNING⟩], trace := [] }).2.queue
      = [⟨7, .S_WAITING⟩, ⟨8, .S_RUNNING⟩] :=
  ⟨by
    rw [(remove_process_from_queue_removes_all 7 _).2.1]
    decide,
   (remove_process_from_queue_removes_all 9
      { queue := [⟨7, .S_WAITING⟩, ⟨8, .S_RUNNING⟩], trace := [] }).2.2.2.1 (by decide)⟩

/-- C7: when the allocation and the lock acquisition succeed,
`add_process_to_queue pid` returns 0, the queue becomes the previous queue
followed by one new descriptor `(pid, S_WAITING)`, and the process facility is
asked exactly once to apply `S_WAITING` to `pid` (a stop signal follows when
the process exists), whether the process is alive or not. -/
theorem add_process_to_queue_appends (alive : Int → Bool) (pid : Int) (w : World) :
    (add_process_to_queue alive false false pid w).1 = 0 ∧
    (add_process_to_queue alive false false pid w).2.queue
      = w.queue ++ [{ pid := pid, state := .S_WAITING }] ∧
    (add_process_to_queue alive false false pid w).2.trace
      = w.trace ++ (Event.apply pid .S_WAITING ::
          (if alive pid then [Event.kill pid .SIGSTOP] else [])) := by
  refine ⟨rfl, rfl, ?_⟩
  cases h : alive pid <;> simp [add_process_to_queue, task_status_change, h]

/-- C8: when the lock acquisition of `add_process_to_queue` is interrupted,
the call returns `-ERESTARTSYS` and the queue is what it was before. -/
theorem add_process_to_queue_interrupted (alive : Int → Bool) (pid : Int) (w : World) :
    (add_process_to_queue alive false true pid w).1 = -ERESTARTSYS ∧
    (add_process_to_queue alive false true pid w).2.queue = w.queue :=
  ⟨rfl, rfl⟩

/-- C13: once the lock is held, `remove_terminated_processes_from_queue`
returns 0 and leaves exactly the descriptors whose state is not
`S_TERMINATED`, in their order, with their id and state. -/
theorem remove_terminated_is_filter (w : World) :
    (remove_terminated_processes_from_queue false w).1 = 0 ∧
    (remove_terminated_processes_from_queue false w).2.queue
      = w.queue.filter (fun e => decide (e.state ≠ .S_TERMINATED)) ∧
    (remove_terminated_processes_from_queue false w).2.trace = w.trace := by
  refine ⟨rfl, ?_, rfl⟩
  simp [remove_terminated_processes_from_queue, remove_terminated_loop_eq_filter]

/-- C14: calling `remove_terminated_processes_from_queue` twice in a row gives
the same state as calling it once, and the second call returns 0. -/
theorem remove_terminated_idempotent (w : World) :
    (remove_terminated_processes_from_queue false
        (remove_terminated_processes_from_queue false w).2).2
      = (remove_terminated_processes_from_queue false w).2 ∧
    (remove_terminated_processes_from_queue false
        (remove_terminated_processes_from_queue false w).2).1 = 0 := by
  refine ⟨?_, rfl⟩
  simp [remove_terminated_processes_from_queue, remove_terminated_loop_eq_filter]

/-- C18: `task_status_change pid st` returns `TS_TERMINATED` exactly when the
process does not exist, and then sends no signal; when the process exists it
returns `TS_EXIST` and sends exactly one `SIGCONT` for `S_RUNNING`, exactly one
`SIGSTOP` for `S_WAITING`, and no signal for the other three states. -/
theorem task_status_change_semantics (alive : Int → Bool) (pid : Int) (st : process_state) :
    ((task_status_change alive pid st).1 = .TS_TERMINATED ↔ alive pid = false) ∧
    ((task_status_change alive pid st).1 = .TS_EXIST ↔ alive pid = true) ∧
    (task_status_change alive pid st).2
      = Event.apply pid st ::
        (if alive pid then
          (match st with
            | .S_RUNNING => [Event.kill pid .SIGCONT]
            | .S_WAITING => [Event.kill pid .SIGSTOP]
            | _ => [])
         else []) := by
  cases h : alive pid <;> cases st <;> simp [task_status_change, h]

/-- C19: `context_switch` runs exactly one rotation step and queues the
delayed work again, with delay `time_quantum * HZ`, if and only if `flag` is
0, whatever the queue functions of the step returned. -/
theorem context_switch_rearms (alive : Int → Bool) (f : Faults) (flag time_quantum HZ : Int)
    (s : Sched) :
    (context_switch alive f flag time_quantum HZ s).1
      = (static_round_robin_scheduling alive f s).2 ∧
    ((context_switch alive f flag time_quantum HZ s).2 = some (time_quantum * HZ)
      ↔ flag = 0) ∧
    ((context_switch alive f flag time_quantum HZ s).2 = none ↔ flag ≠ 0) := by
  by_cases h : flag = 0 <;> simp [context_switch, h]

/-! ## Lookup of the first runnable process -/

theorem get_first_loop_of_ne (alive : Int → Bool) (q : List proc) (p : Int)
    (hp : p ≠ INVALID_PID) : get_first_loop alive q p = (p, []) := by
  induction q with
  | nil => rfl
  | cons tmp rest ih => simp [get_first_loop, hp, ih]

theorem get_first_loop_invalid (alive : Int → Bool) (h1 : alive INVALID_PID = false)
    (q : List proc) :
    (get_first_loop alive q INVALID_PID).1 = first_alive alive q := by
  induction q with
  | nil => rfl
  | cons tmp rest ih =>
    cases h : alive tmp.pid
    · simp [get_first_loop, is_task_exists, h, ih, first_alive, List.find?]
    · have hne : tmp.pid ≠ INVALID_PID := by
        intro he
        rw [he, h1] at h
        exact Bool.noConfusion h
      simp [get_first_loop, is_task_exists, h, first_alive, List.find?,
        get_first_loop_of_ne alive rest tmp.pid hne]

theorem valid_oracle_invalid_pid {alive : Int → Bool} (hv : valid_oracle alive) :
    alive INVALID_PID = false :=
  hv INVALID_PID (by decide)

theorem valid_oracle_all_reg_pids {alive : Int → Bool} (hv : valid_oracle alive) :
    alive ALL_REG_PIDS = false :=
  hv ALL_REG_PIDS (by decide)

theorem first_alive_eq_invalid_iff (alive : Int → Bool) (h1 : alive INVALID_PID = false)
    (q : List proc) :
    first_alive alive q = INVALID_PID ↔ ∀ e ∈ q, alive e.pid = false := by
  unfold first_alive
  cases hf : q.find? (fun e => alive e.pid) with
  | none =>
    simp only [true_iff]
    intro e he
    have := List.find?_eq_none.mp hf e he
    simpa using this
  | some e =>
    have ha : alive e.pid = true := by simpa using List.find?_some hf
    have hm : e ∈ q := List.mem_of_find?_eq_some hf
    constructor
    · intro he
      simp only at he
      rw [he, h1] at ha
      exact Bool.noConfusion ha
    · intro hall
      rw [hall e hm] at ha
      exact Bool.noConfusion ha

theorem first_alive_cases (alive : Int → Bool) (q : List proc) :
    (first_alive alive q = INVALID_PID ∧ ∀ e ∈ q, alive e.pid = false) ∨
    (alive (first_alive alive q) = true ∧ first_alive alive q ∈ pids q) := by
  unfold first_alive
  cases hf : q.find? (fun e => alive e.pid) with
  | none =>
    left
    refine ⟨rfl, ?_⟩
    intro e he
    have := List.find?_eq_none.mp hf e he
    simpa using this
  | some e =>
    right
    have ha : alive e.pid = true := by simpa using List.find?_some hf
    have hm : e ∈ q := List.mem_of_find?_eq_some hf
    exact ⟨ha, by simp only [pids, List.mem_map]; exact ⟨e, hm, rfl⟩⟩

/-- C9: for a process facility that finds no task for a negative id, once the
lock is held `get_first_process_in_queue` returns the id of the earliest
descriptor whose process is alive, returns `INVALID_PID` if and only if the
queue is empty or every entry is dead, and leaves the queue as it was. -/
theorem get_first_process_in_queue_first_alive (alive : Int → Bool)
    (hv : valid_oracle alive) (w : World) :
    (get_first_process_in_queue alive false w).1 = first_alive alive w.queue ∧
    (∀ (pre post : List proc) (e : proc), w.queue = pre ++ e :: post →
      (∀ x ∈ pre, alive x.pid = false) → alive e.pid = true →
      (get_first_process_in_queue alive false w).1 = e.pid) ∧
    ((get_first_process_in_queue alive false w).1 = INVALID_PID
      ↔ (w.queue = [] ∨ ∀ e ∈ w.queue, alive e.pid = false)) ∧
    (get_first_process_in_queue alive false w).2.queue = w.queue := by
  have h1 := valid_oracle_invalid_pid hv
  have hr : (get_first_process_in_queue alive false w).1 = first_alive alive w.queue := by
    simp [get_first_process_in_queue, get_first_loop_invalid alive h1]
  refine ⟨hr, ?_, ?_, rfl⟩
  · intro pre post e hq hpre he
    rw [hr, hq]
    unfold first_alive
    have : (pre ++ e :: post).find? (fun e => alive e.pid) = some e := by
      rw [List.find?_append]
      have hn : pre.find? (fun e => alive e.pid) = none := by
        apply List.find?_eq_none.mpr
        intro x hx
        simp [hpre x hx]
      simp [hn, List.find?, he]
    rw [this]
  · rw [hr, first_alive_eq_invalid_iff alive h1]
    constructor
    · intro h
      exact Or.inr h
    · intro h
      cases h with
      | inl h0 => intro e he; rw [h0] at he; cases he
      | inr h => exact h

/-- C9 at the queue `[4, 5, 6]` when only 5 and 6 are alive. -/
theorem get_first_process_in_queue_first_alive_witness :
    (get_first_process_in_queue (fun p => decide (p = 5 ∨ p = 6)) false
        { queue := [⟨4, .S_WAITING⟩, ⟨5, .S_WAITING⟩, ⟨6, .S_WAITING⟩], trace := [] }).1 = 5 :=
  (get_first_process_in_queue_first_alive (fun p => decide (p = 5 ∨ p = 6))
    (by intro p hp; simp only [decide_eq_false_iff_not]; omega)
    { queue := [⟨4, .S_WAITING⟩, ⟨5, .S_WAITING⟩, ⟨6, .S_WAITING⟩], trace := [] }).2.1
    [⟨4, .S_WAITING⟩] [⟨6, .S_WAITING⟩] ⟨5, .S_WAITING⟩ rfl
    (by intro x hx; simp only [List.mem_singleton] at hx; subst hx; decide) (by decide)

/-! ## State updates -/

theorem task_status_change_fst (alive : Int → Bool) (pid : Int) (st : process_state) :
    (task_status_change alive pid st).1
      = if alive pid then task_status_code.TS_EXIST else task_status_code.TS_TERMINATED := by
  cases h : alive pid <;> cases st <;> simp [task_status_change, h]

theorem is_task_exists_fst (alive : Int → Bool) (pid : Int) :
    (is_task_exists alive pid).1
      = if alive pid then task_status_code.TS_EXIST else task_status_code.TS_TERMINATED := by
  cases h : alive pid <;> simp [is_task_exists, h]

theorem is_task_exists_snd (alive : Int → Bool) (pid : Int) :
    (is_task_exists alive pid).2 = [Event.probe pid] := by
  cases h : alive pid <;> simp [is_task_exists, h]

theorem change_one_loop_queue (alive : Int → Bool) (t : Int) (s : process_state)
    (q : List proc) (ret : Option process_state) :
    (change_one_loop alive t s q ret).1 = q.map (updated alive t s) := by
  induction q generalizing ret with
  | nil => rfl
  | cons node rest ih =>
    by_cases hp : node.pid = t
    · cases ha : alive node.pid <;>
        simp [change_one_loop, updated, task_status_change_fst, hp, ha, ih, hp ▸ ha]
    · cases ha : alive node.pid <;>
        simp [change_one_loop, updated, is_task_exists_fst, hp, ha, ih]

theorem change_one_loop_calls (alive : Int → Bool) (t : Int) (s : process_state)
    (q : List proc) (ret : Option process_state) :
    (change_one_loop alive t s q ret).2.2 = q.flatMap (calls_for alive t s) := by
  induction q generalizing ret with
  | nil => rfl
  | cons node rest ih =>
    by_cases hp : node.pid = t
    · cases ha : alive node.pid <;>
        simp [change_one_loop, calls_for, task_status_change_fst, hp, ha, ih, hp ▸ ha]
    · cases ha : alive node.pid <;>
        simp [change_one_loop, calls_for, is_task_exists_fst, is_task_exists_snd, hp, ha, ih]

theorem change_one_loop_ret (alive : Int → Bool) (t : Int) (s : process_state)
    (q : List proc) (ret : Option process_state) :
    (change_one_loop alive t s q ret).2.1
      = if t ∈ pids q ∧ alive t = false then some .S_TERMINATED else ret := by
  induction q generalizing ret with
  | nil => simp [change_one_loop, pids]
  | cons node rest ih =>
    by_cases hp : node.pid = t
    · cases ha : alive node.pid
      · have hat : alive t = false := hp ▸ ha
        simp [change_one_loop, task_status_change_fst, hp, hat, ih, pids]
      · have hat : alive t = true := hp ▸ ha
        simp [change_one_loop, task_status_change_fst, hp, hat, ih, pids]
    · have hp2 : ¬ t = node.pid := fun h => hp h.symm
      cases ha : alive node.pid <;>
        simp [change_one_loop, is_task_exists_fst, hp, hp2, ha, ih, pids]

theorem pids_map_updated (alive : Int → Bool) (t : Int) (s : process_state) (q : List proc) :
    pids (q.map (updated alive t s)) = pids q := by
  induction q with
  | nil => rfl
  | cons node rest ih =>
    simp only [pids, List.map_cons, List.cons.injEq] at ih ⊢
    refine ⟨?_, ih⟩
    unfold updated
    split_ifs <;> rfl

theorem change_all_loop_queue (alive : Int → Bool) (s : process_state) (q : List proc) :
    (change_all_loop alive s q).1 = q.map (updated_all alive s) := by
  induction q with
  | nil => rfl
  | cons node rest ih =>
    cases ha : alive node.pid <;> cases s <;>
      simp [change_all_loop, updated_all, task_status_change, ha, ih]

theorem change_all_loop_calls (alive : Int → Bool) (s : process_state) (q : List proc) :
    (change_all_loop alive s q).2
      = q.flatMap (fun e => (task_status_change alive e.pid s).2) := by
  induction q with
  | nil => rfl
  | cons node rest ih => simp [change_all_loop, ih]

theorem pids_map_updated_all (alive : Int → Bool) (s : process_state) (q : List proc) :
    pids (q.map (updated_all alive s)) = pids q := by
  simp [pids, updated_all, Function.comp_def]

theorem task_status_change_calls (alive : Int → Bool) (pid : Int) (st : process_state) :
    (task_status_change alive pid st).2
      = Event.apply pid st ::
        (if alive pid then
          (match signal_of st with
            | some sig => [Event.kill pid sig]
            | none => [])
         else []) := by
  cases h : alive pid <;> cases st <;> simp [task_status_change, signal_of, h]

theorem count_apply_calls (alive : Int → Bool) (s : process_state) (p : Int) (q : List proc) :
    (q.flatMap (fun e => (task_status_change alive e.pid s).2)).count (Event.apply p s)
      = (pids q).count p := by
  induction q with
  | nil => rfl
  | cons node rest ih =>
    simp only [List.flatMap_cons, List.count_append, ih, pids, List.map_cons]
    rw [task_status_change_calls]
    by_cases hp : node.pid = p
    · subst hp
      cases ha : alive node.pid <;> cases s <;> simp [signal_of, Nat.add_comm]
    · have hp2 : ¬ p = node.pid := fun h => hp h.symm
      cases ha : alive node.pid <;> cases s <;>
        simp [signal_of, hp, hp2, List.count_cons]

theorem count_kill_calls (alive : Int → Bool) (s : process_state) (p : Int) (sig : Signal)
    (q : List proc) :
    (q.flatMap (fun e => (task_status_change alive e.pid s).2)).count (Event.kill p sig)
      = if alive p = true ∧ signal_of s = some sig then (pids q).count p else 0 := by
  induction q with
  | nil => simp [pids]
  | cons node rest ih =>
    simp only [List.flatMap_cons, List.count_append, ih, pids, List.map_cons]
    rw [task_status_change_calls]
    by_cases hp : node.pid = p
    · subst hp
      cases ha : alive node.pid <;> cases s <;> cases sig <;>
        simp [signal_of, Nat.add_comm, List.count_cons]
    · have hp2 : ¬ p = node.pid := fun h => hp h.symm
      cases ha : alive node.pid <;> cases s <;> cases sig <;>
        simp [signal_of, hp, hp2, List.count_cons]

/-- C10: for a target id `t` other than `ALL_REG_PIDS` and any requested state
`s`, once the lock is held `change_process_state_in_queue t s` keeps the
sequence of ids; a descriptor with id `t` ends with state `s` if its process is
alive and `S_TERMINATED` if it is dead; any other descriptor ends
`S_TERMINATED` if its process is dead and keeps its state if it is alive; the
calls made are, descriptor by descriptor, one state directive for a descriptor
with id `t` and one liveness probe for any other. -/
theorem change_process_state_single (alive : Int → Bool) (t : Int)
    (ht : t ≠ ALL_REG_PIDS) (s : process_state) (w : World) :
    pids (change_process_state_in_queue alive false t s w).2.queue = pids w.queue ∧
    (change_process_state_in_queue alive false t s w).2.queue
      = w.queue.map (fun e =>
          if e.pid = t then { e with state := if alive e.pid then s else .S_TERMINATED }
          else if alive e.pid then e
          else { e with state := .S_TERMINATED }) ∧
    (change_process_state_in_queue alive false t s w).2.trace
      = w.trace ++ w.queue.flatMap (fun e =>
          if e.pid = t then (task_status_change alive e.pid s).2 else [Event.probe e.pid]) ∧
    (∀ (p : Int) (st : process_state) (sig : Signal), p ≠ t →
      Event.apply p st ∉ w.queue.flatMap (calls_for alive t s) ∧
      Event.kill p sig ∉ w.queue.flatMap (calls_for alive t s)) := by
  have hq : (change_process_state_in_queue alive false t s w).2.queue
      = w.queue.map (updated alive t s) := by
    simp [change_process_state_in_queue, ht, change_one_loop_queue]
  refine ⟨?_, hq, ?_, ?_⟩
  · rw [hq, pids_map_updated]
  · simp [change_process_state_in_queue, ht, change_one_loop_calls]
    rfl
  · intro p st sig hp
    constructor
    · intro hmem
      obtain ⟨e, _, he⟩ := List.mem_flatMap.mp hmem
      unfold calls_for at he
      split_ifs at he with h1
      · rw [task_status_change_calls] at he
        cases ha : alive e.pid <;> cases hs : signal_of s <;>
          simp [ha, hs] at he
        all_goals omega
      · simp at he
    · intro hmem
      obtain ⟨e, _, he⟩ := List.mem_flatMap.mp hmem
      unfold calls_for at he
      split_ifs at he with h1
      · rw [task_status_change_calls] at he
        cases ha : alive e.pid <;> cases hs : signal_of s <;>
          simp [ha, hs] at he
        omega
      · simp at he

/-- C10 at the queue `[1, 2, 3]`, target 2, when only 1 and 2 are alive. -/
theorem change_process_state_single_witness :
    (change_process_state_in_queue (fun p => decide (p = 1 ∨ p = 2)) false 2 .S_RUNNING
        { queue := [⟨1, .S_WAITING⟩, ⟨2, .S_WAITING⟩, ⟨3, .S_WAITING⟩], trace := [] }).2.queue
      = [⟨1, .S_WAITING⟩, ⟨2, .S_RUNNING⟩, ⟨3, .S_TERMINATED⟩] := by
  rw [(change_process_state_single (fun p => decide (p = 1 ∨ p = 2)) 2 (by decide)
    .S_RUNNING _).2.1]
  decide

/-- C11: evaluation at a failing input.  The target 1 is registered and its
process is alive, the requested state is `S_RUNNING`; the function returns its
local `ret_process_change_status`, which was never assigned. -/
theorem change_process_state_result_unset_for_live_target :
    (change_process_state_in_queue (fun _ => true) false 1 .S_RUNNING
        { queue := [⟨1, .S_WAITING⟩], trace := [] }).1 = none := by
  decide

/-- C12: once the lock is held, `change_process_state_in_queue ALL_REG_PIDS s`
keeps the sequence of ids, sets the state of every descriptor whose process is
alive to `s` and of every descriptor whose process is dead to `S_TERMINATED`;
when the ids are pairwise distinct, the process facility is asked to apply `s`
exactly once for each registered id, a live id receives the signal that goes
with `s` exactly once, and a dead id receives no signal. -/
theorem change_process_state_bulk (alive : Int → Bool) (s : process_state) (w : World) :
    pids (change_process_state_in_queue alive false ALL_REG_PIDS s w).2.queue
      = pids w.queue ∧
    (change_process_state_in_queue alive false ALL_REG_PIDS s w).2.queue
      = w.queue.map (fun e =>
          { e with state := if alive e.pid then s else .S_TERMINATED }) ∧
    (change_process_state_in_queue alive false ALL_REG_PIDS s w).2.trace
      = w.trace ++ w.queue.flatMap (fun e => (task_status_change alive e.pid s).2) ∧
    ((pids w.queue).Nodup → ∀ p ∈ pids w.queue,
      (w.queue.flatMap (fun e => (task_status_change alive e.pid s).2)).count
          (Event.apply p s) = 1 ∧
      (∀ sig, alive p = true → signal_of s = some sig →
        (w.queue.flatMap (fun e => (task_status_change alive e.pid s).2)).count
          (Event.kill p sig) = 1) ∧
      (∀ sig, alive p = false →
        (w.queue.flatMap (fun e => (task_status_change alive e.pid s).2)).count
          (Event.kill p sig) = 0)) := by
  have hq : (change_process_state_in_queue alive false ALL_REG_PIDS s w).2.queue
      = w.queue.map (updated_all alive s) := by
    simp [change_process_state_in_queue, change_all_loop_queue]
  refine ⟨?_, hq, ?_, ?_⟩
  · rw [hq, pids_map_updated_all]
  · simp [change_process_state_in_queue, change_all_loop_calls]
  · intro hnd p hp
    have hc : (pids w.queue).count p = 1 := List.count_eq_one_of_mem hnd hp
    refine ⟨?_, ?_, ?_⟩
    · rw [count_apply_calls, hc]
    · intro sig ha hs
      rw [count_kill_calls, hc]
      simp [ha, hs]
    · intro sig ha
      rw [count_kill_calls]
      simp [ha]

/-- C12 at the registry `{1, 2, 3}` with requested state `S_WAITING`, all
three processes alive: each id receives one stop signal. -/
theorem change_process_state_bulk_witness :
    ([⟨1, .S_RUNNING⟩, ⟨2, .S_WAITING⟩, ⟨3, .S_BLOCKING⟩].flatMap
        (fun e : proc => (task_status_change (fun _ => true) e.pid .S_WAITING).2)).count
      (Event.kill 2 .SIGSTOP) = 1 :=
  ((change_process_state_bulk (fun _ => true) .S_WAITING
      { queue := [⟨1, .S_RUNNING⟩, ⟨2, .S_WAITING⟩, ⟨3, .S_BLOCKING⟩], trace := [] }).2.2.2
    (by decide) 2 (by decide)).2.1 .SIGSTOP rfl rfl

/-! ## Uniqueness of ids -/

theorem pids_filter_nodup (f : proc → Bool) (q : List proc) (h : (pids q).Nodup) :
    (pids (q.filter f)).Nodup := by
  unfold pids at *
  exact (List.filter_sublist q).map proc.pid |>.nodup h

/-- C5, as stated, fails for `add_process_to_queue`: registering the id 1 in a
queue that already holds it leaves two descriptors with that id. -/
theorem add_process_to_queue_duplicates :
    (pids [(⟨1, .S_WAITING⟩ : proc)]).Nodup ∧
    ¬ (pids (add_process_to_queue (fun _ => true) false false 1
        { queue := [⟨1, .S_WAITING⟩], trace := [] }).2.queue).Nodup := by
  decide

/-- C5, amended: if no two descriptors share an id, then after
`remove_process_from_queue`, `remove_terminated_processes_from_queue` or
`change_process_state_in_queue` (one id or all, lock held or interrupted)
still no two descriptors share an id; after a successful
`add_process_to_queue pid` this holds if and only if `pid` was not registered
before the call, and a failed `add_process_to_queue` leaves the queue as it
was. -/
theorem uniqueness_preserved (alive : Int → Bool) (w : World)
    (h : (pids w.queue).Nodup) :
    (∀ b pid, (pids (remove_process_from_queue b pid w).2.queue).Nodup) ∧
    (∀ b, (pids (remove_terminated_processes_from_queue b w).2.queue).Nodup) ∧
    (∀ b pid s, (pids (change_process_state_in_queue alive b pid s w).2.queue).Nodup) ∧
    (∀ pid, (pids (add_process_to_queue alive false false pid w).2.queue).Nodup
      ↔ pid ∉ pids w.queue) ∧
    (∀ pid, (add_process_to_queue alive true false pid w).2.queue = w.queue ∧
      (add_process_to_queue alive true true pid w).2.queue = w.queue ∧
      (add_process_to_queue alive false true pid w).2.queue = w.queue) := by
  refine ⟨?_, ?_, ?_, ?_, ?_⟩
  · intro b pid
    cases b
    · simp only [remove_process_from_queue, remove_process_loop_eq_filter]
      exact pids_filter_nodup _ _ h
    · exact h
  · intro b
    cases b
    · simp only [remove_terminated_processes_from_queue, remove_terminated_loop_eq_filter]
      exact pids_filter_nodup _ _ h
    · exact h
  · intro b pid s
    cases b
    · by_cases hp : pid = ALL_REG_PIDS
      · subst hp
        have hq : (change_process_state_in_queue alive false ALL_REG_PIDS s w).2.queue
            = w.queue.map (updated_all alive s) := by
          simp [change_process_state_in_queue, change_all_loop_queue]
        rw [hq, pids_map_updated_all]
        exact h
      · have hq : (change_process_state_in_queue alive false pid s w).2.queue
            = w.queue.map (updated alive pid s) := by
          simp [change_process_state_in_queue, hp, change_one_loop_queue]
        rw [hq, pids_map_updated]
        exact h
    · exact h
  · intro pid
    have hq : pids (add_process_to_queue alive false false pid w).2.queue
        = pids w.queue ++ [pid] := by
      simp [add_process_to_queue, pids]
    rw [hq, List.nodup_append]
    constructor
    · intro hh hm
      exact hh.2.2 hm (List.mem_singleton_self pid)
    · intro hn
      refine ⟨h, List.nodup_singleton pid, ?_⟩
      intro a ha hb
      rw [List.mem_singleton] at hb
      subst hb
      exact hn ha
  · intro pid
    exact ⟨rfl, rfl, rfl⟩

/-- C5 amended, at the queue `[1, 2]`: registering 3 keeps the ids distinct. -/
theorem uniqueness_preserved_witness :
    (pids (add_process_to_queue (fun _ => true) false false 3
        { queue := [⟨1, .S_WAITING⟩, ⟨2, .S_WAITING⟩], trace := [] }).2.queue).Nodup :=
  ((uniqueness_preserved (fun _ => true)
      { queue := [⟨1, .S_WAITING⟩, ⟨2, .S_WAITING⟩], trace := [] } (by decide)).2.2.2.1 3).mpr
    (by decide)

/-! ## The rotation step without failure -/

theorem first_alive_ne_all_reg_pids (alive : Int → Bool) (hv : valid_oracle alive)
    (q : List proc) : first_alive alive q ≠ ALL_REG_PIDS := by
  intro h
  rcases first_alive_cases alive q with ⟨h1, _⟩ | ⟨h1, _⟩
  · rw [h1] at h
    exact absurd h (by decide)
  · rw [h, valid_oracle_all_reg_pids hv] at h1
    exact Bool.noConfusion h1

theorem step_current_pid (alive : Int → Bool) (hv : valid_oracle alive) (s : Sched) :
    (static_round_robin_scheduling alive no_faults s).2.current_pid
      = first_alive alive (demoted s) := by
  have h1 := valid_oracle_invalid_pid hv
  by_cases hc : s.current_pid = -1
  · simp [static_round_robin_scheduling, no_faults, hc, demoted,
      remove_terminated_processes_from_queue, remove_terminated_loop_eq_filter,
      get_first_process_in_queue, get_first_loop_invalid alive h1]
  · simp [static_round_robin_scheduling, no_faults, hc, demoted,
      remove_terminated_processes_from_queue, remove_terminated_loop_eq_filter,
      add_process_to_queue,
      get_first_process_in_queue, get_first_loop_invalid alive h1]

theorem step_queue (alive : Int → Bool) (hv : valid_oracle alive) (s : Sched) :
    (static_round_robin_scheduling alive no_faults s).2.world.queue
      = if first_alive alive (demoted s) = -1 then demoted s
        else ((demoted s).map (updated alive (first_alive alive (demoted s)) .S_RUNNING)).filter
          (fun e => decide (e.pid ≠ first_alive alive (demoted s))) := by
  have h1 := valid_oracle_invalid_pid hv
  have h2 := first_alive_ne_all_reg_pids alive hv (demoted s)
  by_cases hc : s.current_pid = -1
  · by_cases hn : first_alive alive (demoted s) = -1
    · rw [if_pos hn]
      simp [demoted, hc] at hn
      simp [static_round_robin_scheduling, no_faults, hc, demoted,
        remove_terminated_processes_from_queue, remove_terminated_loop_eq_filter,
        get_first_process_in_queue, get_first_loop_invalid alive h1, hn]
    · rw [if_neg hn]
      simp [demoted, hc] at hn h2 ⊢
      simp [static_round_robin_scheduling, no_faults, hc,
        remove_terminated_processes_from_queue, remove_terminated_loop_eq_filter,
        get_first_process_in_queue, get_first_loop_invalid alive h1, hn, h2,
        change_process_state_in_queue, change_one_loop_queue,
        remove_process_from_queue, remove_process_loop_eq_filter, print_process_queue]
  · by_cases hn : first_alive alive (demoted s) = -1
    · rw [if_pos hn]
      simp [demoted, hc] at hn
      simp [static_round_robin_scheduling, no_faults, hc, demoted,
        remove_terminated_processes_from_queue, remove_terminated_loop_eq_filter,
        add_process_to_queue,
        get_first_process_in_queue, get_first_loop_invalid alive h1, hn]
    · rw [if_neg hn]
      simp [demoted, hc] at hn h2 ⊢
      simp [static_round_robin_scheduling, no_faults, hc,
        remove_terminated_processes_from_queue, remove_terminated_loop_eq_filter,
        add_process_to_queue,
        get_first_process_in_queue, get_first_loop_invalid alive h1, hn, h2,
        change_process_state_in_queue, change_one_loop_queue,
        remove_process_from_queue, remove_process_loop_eq_filter, print_process_queue]

theorem alive_ne_invalid {alive : Int → Bool} (hv : valid_oracle alive) {p : Int}
    (h : alive p = true) : p ≠ -1 := by
  intro hp
  have := hv p (by omega)
  rw [this] at h
  exact Bool.noConfusion h

theorem map_updated_eq_self (alive : Int → Bool) (t : Int) (s : process_state)
    (l : List proc) (h1 : ∀ e ∈ l, alive e.pid = true) (h2 : t ∉ pids l) :
    l.map (updated alive t s) = l := by
  induction l with
  | nil => rfl
  | cons a rest ih =>
    have ha : alive a.pid = true := h1 a (List.mem_cons_self a rest)
    have hne : a.pid ≠ t := by
      intro h
      exact h2 (by simp [pids, h])
    have hr : t ∉ pids rest := by
      intro h
      exact h2 (by simp only [pids, List.map_cons, List.mem_cons]; exact Or.inr h)
    rw [List.map_cons, ih (fun e he => h1 e (List.mem_cons_of_mem a he)) hr]
    simp [updated, hne, ha]

theorem filter_ne_eq_self (t : Int) (l : List proc) (h2 : t ∉ pids l) :
    l.filter (fun e => decide (e.pid ≠ t)) = l := by
  apply List.filter_eq_self.mpr
  intro e he
  simp only [decide_eq_true_eq]
  intro h
  exact h2 (by simp only [pids, List.mem_map]; exact ⟨e, he, h⟩)

/-- When the queue left by the first two sub-steps is headed by `h`, holds
only alive processes and no id twice, the rotation selects `h` and leaves the
rest of that queue untouched. -/
theorem step_of_demoted_cons (alive : Int → Bool) (hv : valid_oracle alive) (s : Sched)
    (h : proc) (rest : List proc) (hd : demoted s = h :: rest)
    (hal : ∀ e ∈ h :: rest, alive e.pid = true) (hnd : (pids (h :: rest)).Nodup) :
    (static_round_robin_scheduling alive no_faults s).2.current_pid = h.pid ∧
    (static_round_robin_scheduling alive no_faults s).2.world.queue = rest := by
  have hha : alive h.pid = true := hal h (List.mem_cons_self h rest)
  have hfa : first_alive alive (h :: rest) = h.pid := by
    simp [first_alive, List.find?, hha]
  have hnr : h.pid ∉ pids rest := by
    have := hnd
    simp only [pids, List.map_cons, List.nodup_cons] at this
    exact this.1
  refine ⟨?_, ?_⟩
  · rw [step_current_pid alive hv, hd, hfa]
  · rw [step_queue alive hv, hd, hfa, if_neg (alive_ne_invalid hv hha)]
    rw [List.map_cons, map_updated_eq_self alive h.pid .S_RUNNING rest
      (fun e he => hal e (List.mem_cons_of_mem h he)) hnr]
    rw [List.filter_cons]
    have : (decide ((updated alive h.pid process_state.S_RUNNING h).pid ≠ h.pid)) = false := by
      simp [updated]
    rw [this]
    simp only [Bool.false_eq_true, if_false]
    exact filter_ne_eq_self h.pid rest hnr

theorem demoted_of_live (alive : Int → Bool) (q : List proc) (tr : List Event) (c : Int)
    (hl : ∀ e ∈ q, live alive e) :
    demoted { world := { queue := q, trace := tr }, current_pid := c }
      = q ++ (if c ≠ -1 then [(⟨c, .S_WAITING⟩ : proc)] else []) := by
  unfold demoted
  congr 1
  apply List.filter_eq_self.mpr
  intro e he
  simpa using (hl e he).2

/-- One rotation step from a queue of live entries with distinct ids and an
alive current id outside of it. -/
theorem rotation_step (alive : Int → Bool) (hv : valid_oracle alive)
    (q : List proc) (tr : List Event) (c : Int)
    (hnd : (pids q).Nodup) (hl : ∀ e ∈ q, live alive e)
    (hca : alive c = true) (hcq : c ∉ pids q) :
    some (static_round_robin_scheduling alive no_faults
        { world := { queue := q, trace := tr }, current_pid := c }).2.current_pid
      = (pids q ++ [c]).head? ∧
    (static_round_robin_scheduling alive no_faults
        { world := { queue := q, trace := tr }, current_pid := c }).2.world.queue
      = (q ++ [(⟨c, .S_WAITING⟩ : proc)]).tail ∧
    pids (static_round_robin_scheduling alive no_faults
        { world := { queue := q, trace := tr }, current_pid := c }).2.world.queue
      = (pids q ++ [c]).tail := by
  have hc : c ≠ -1 := alive_ne_invalid hv hca
  have hd := demoted_of_live alive q tr c hl
  rw [if_pos hc] at hd
  have hal : ∀ e ∈ q ++ [({ pid := c, state := .S_WAITING } : proc)], alive e.pid = true := by
    intro e he
    rcases List.mem_append.mp he with h | h
    · exact (hl e h).1
    · rw [List.mem_singleton] at h
      subst h
      exact hca
  have hnd2 : (pids (q ++ [({ pid := c, state := .S_WAITING } : proc)])).Nodup := by
    simp only [pids, List.map_append, List.map_cons, List.map_nil]
    rw [List.nodup_append]
    refine ⟨hnd, List.nodup_singleton c, ?_⟩
    intro a ha hb
    rw [List.mem_singleton] at hb
    subst hb
    exact hcq ha
  cases hq : q ++ [({ pid := c, state := .S_WAITING } : proc)] with
  | nil => simp at hq
  | cons h rest =>
    rw [hq] at hd hal hnd2
    obtain ⟨h1, h2⟩ := step_of_demoted_cons alive hv _ h rest hd hal hnd2
    have hp : pids q ++ [c] = h.pid :: pids rest := by
      have := congrArg pids hq
      simpa [pids] using this
    refine ⟨?_, ?_, ?_⟩
    · rw [h1, hp]; rfl
    · rw [h2]; rfl
    · rw [h2, hp]; rfl

/-- C2: for a queue `q` of live entries (process alive, not marked terminated)
with pairwise distinct ids, and a current id `c` that is alive (hence set) and
not in `q`, one rotation step without failure leaves as current id the head of
`q ++ [c]` and as queue exactly the tail of `q ++ [(c, S_WAITING)]`: the
descriptors kept from `q` keep their state and `c` is back as waiting. -/
theorem rotation_by_one (alive : Int → Bool) (hv : valid_oracle alive)
    (q : List proc) (tr : List Event) (c : Int)
    (hnd : (pids q).Nodup) (hl : ∀ e ∈ q, live alive e)
    (hca : alive c = true) (hcq : c ∉ pids q) :
    some (static_round_robin_scheduling alive no_faults
        { world := { queue := q, trace := tr }, current_pid := c }).2.current_pid
      = (pids q ++ [c]).head? ∧
    (static_round_robin_scheduling alive no_faults
        { world := { queue := q, trace := tr }, current_pid := c }).2.world.queue
      = (q ++ [(⟨c, .S_WAITING⟩ : proc)]).tail ∧
    pids (static_round_robin_scheduling alive no_faults
        { world := { queue := q, trace := tr }, current_pid := c }).2.world.queue
      = (pids q ++ [c]).tail :=
  rotation_step alive hv q tr c hnd hl hca hcq

/-- C2 at the queue `[1 (waiting), 2 (blocking)]` with current id 3. -/
theorem rotation_by_one_witness :
    (static_round_robin_scheduling (fun p => decide (0 ≤ p)) no_faults
        { world := { queue := [⟨1, .S_WAITING⟩, ⟨2, .S_BLOCKING⟩], trace := [] },
          current_pid := 3 }).2.world.queue
      = [⟨2, .S_BLOCKING⟩, ⟨3, .S_WAITING⟩] :=
  (rotation_by_one (fun p => decide (0 ≤ p))
    (by intro p hp; simp only [decide_eq_false_iff_not]; omega)
    [⟨1, .S_WAITING⟩, ⟨2, .S_BLOCKING⟩] [] 3 (by decide)
    (by
      intro e he
      simp only [List.mem_cons, List.mem_singleton, List.not_mem_nil, or_false] at he
      rcases he with h | h <;> subst h <;> exact ⟨by decide, by decide⟩)
    (by decide) (by decide)).2.1

/-! ## Repeated rotation -/

theorem run_steps_succ (alive : Int → Bool) (n : Nat) (s : Sched) :
    run_steps alive (n + 1) s
      = (static_round_robin_scheduling alive no_faults (run_steps alive n s)).2 := by
  induction n generalizing s with
  | zero => rfl
  | succ n ih =>
    show run_steps alive (n + 1) (static_round_robin_scheduling alive no_faults s).2 = _
    rw [ih]
    rfl

/-- First rotation, from no current id: the head of a queue of live entries
with distinct ids is selected and the rest stays. -/
theorem first_rotation (alive : Int → Bool) (hv : valid_oracle alive) (w : World)
    (h : proc) (rest : List proc) (hq : w.queue = h :: rest)
    (hnd : (pids w.queue).Nodup) (hl : ∀ e ∈ w.queue, live alive e) :
    (static_round_robin_scheduling alive no_faults
        { world := w, current_pid := -1 }).2.current_pid = h.pid ∧
    (static_round_robin_scheduling alive no_faults
        { world := w, current_pid := -1 }).2.world.queue = rest := by
  have hd : demoted { world := w, current_pid := -1 } = h :: rest := by
    have := demoted_of_live alive w.queue w.trace (-1) hl
    simp only [ne_eq, not_true_eq_false, if_false, List.append_nil] at this
    rw [← hq, ← this]
  rw [hq] at hnd hl
  exact step_of_demoted_cons alive hv _ h rest hd (fun e he => (hl e he).1) hnd

/-- After `j + 1` rotations from a queue of live entries with distinct ids and
no current id, the current id followed by the ids of the queue is the initial
id sequence rotated `j` times, and the entries of the queue are live. -/
theorem run_steps_rotate (alive : Int → Bool) (hv : valid_oracle alive) (w : World)
    (hne : w.queue ≠ []) (hnd : (pids w.queue).Nodup) (hl : ∀ e ∈ w.queue, live alive e)
    (j : Nat) :
    (run_steps alive (j + 1) { world := w, current_pid := -1 }).current_pid ::
        pids (run_steps alive (j + 1) { world := w, current_pid := -1 }).world.queue
      = (pids w.queue).rotate j ∧
    (∀ e ∈ (run_steps alive (j + 1) { world := w, current_pid := -1 }).world.queue,
      live alive e) := by
  induction j with
  | zero =>
    cases hq : w.queue with
    | nil => exact absurd hq hne
    | cons h rest =>
      obtain ⟨h1, h2⟩ := first_rotation alive hv w h rest hq hnd hl
      have hr : run_steps alive 1 { world := w, current_pid := -1 }
          = (static_round_robin_scheduling alive no_faults
              { world := w, current_pid := -1 }).2 := rfl
      rw [hr, h1, h2]
      refine ⟨by simp [pids], ?_⟩
      intro e he
      exact hl e (by rw [hq]; exact List.mem_cons_of_mem h he)
  | succ j ih =>
    obtain ⟨ih1, ih2⟩ := ih
    rw [run_steps_succ alive (j + 1)]
    generalize run_steps alive (j + 1) { world := w, current_pid := -1 } = sj at ih1 ih2 ⊢
    obtain ⟨wj, c⟩ := sj
    obtain ⟨qj, trj⟩ := wj
    simp only at ih1 ih2
    have hndj : (c :: pids qj).Nodup := by
      rw [ih1]
      exact List.nodup_rotate.mpr hnd
    have hcm : c ∈ pids w.queue := by
      have : c ∈ (pids w.queue).rotate j := by rw [← ih1]; exact List.mem_cons_self c _
      exact List.mem_rotate.mp this
    have hca : alive c = true := by
      simp only [pids, List.mem_map] at hcm
      obtain ⟨e, he, hec⟩ := hcm
      rw [← hec]
      exact (hl e he).1
    have hcq : c ∉ pids qj := (List.nodup_cons.mp hndj).1
    have hndq : (pids qj).Nodup := (List.nodup_cons.mp hndj).2
    obtain ⟨_, r2, r3⟩ := rotation_step alive hv qj trj c hndq ih2 hca hcq
    have r1 := (rotation_step alive hv qj trj c hndq ih2 hca hcq).1
    constructor
    · have hrot : (pids w.queue).rotate (j + 1) = pids qj ++ [c] := by
        rw [← List.rotate_rotate, ← ih1]
        simp [List.rotate_cons_succ]
      rw [hrot, r3]
      cases hpq : pids qj ++ [c] with
      | nil => simp at hpq
      | cons a l =>
        rw [hpq] at r1
        simp only [List.head?_cons, Option.some.injEq] at r1
        rw [r1]
        rfl
    · intro e he
      rw [r2] at he
      have hm : e ∈ qj ++ [(⟨c, .S_WAITING⟩ : proc)] := List.mem_of_mem_tail he
      rcases List.mem_append.mp hm with h | h
      · exact ih2 e h
      · rw [List.mem_singleton] at h
        subst h
        exact ⟨hca, by simp⟩

theorem run_steps_current (alive : Int → Bool) (hv : valid_oracle alive) (w : World)
    (hne : w.queue ≠ []) (hnd : (pids w.queue).Nodup) (hl : ∀ e ∈ w.queue, live alive e)
    (k : Nat) (hk : 1 ≤ k) :
    (pids w.queue)[(k - 1) % w.queue.length]?
      = some (run_steps alive k { world := w, current_pid := -1 }).current_pid := by
  obtain ⟨j, rfl⟩ : ∃ j, k = j + 1 := ⟨k - 1, by omega⟩
  have h := (run_steps_rotate alive hv w hne hnd hl j).1
  have hlen : (pids w.queue).length = w.queue.length := by simp [pids]
  have hpos : 0 < (pids w.queue).length := by
    rw [hlen]
    exact List.length_pos.mpr hne
  have hh : ((pids w.queue).rotate j).head?
      = (pids w.queue)[j % (pids w.queue).length]? := by
    rw [← List.rotate_mod]
    exact List.head?_rotate (Nat.mod_lt _ hpos)
  rw [← h] at hh
  simp only [List.head?_cons] at hh
  rw [Nat.add_sub_cancel, ← hlen]
  exact hh.symm

/-- C1: under a process facility that finds no task for a negative id.
(1) From the empty registry with no current id, after the registrations of 1,
2 and 3, all three alive, four successive rotation steps without failure set
the current id to 1, 2, 3, 1.  (2) For every queue of `n ≥ 1` live entries
(process alive, not marked terminated) with pairwise distinct ids
`p_0 .. p_(n-1)` and no current id, the `k`-th rotation step (`k ≥ 1`) sets
the current id to `p_((k-1) mod n)`.  (3) Hence every registered id is selected
by one of the first `n` steps. -/
theorem fifo_rotation (alive : Int → Bool) (hv : valid_oracle alive) :
    (alive 1 = true → alive 2 = true → alive 3 = true → ∀ tr : List Event,
      [1, 2, 3, 4].map (fun k => (run_steps alive k
        { world := (add_process_to_queue alive false false 3
            (add_process_to_queue alive false false 2
              (add_process_to_queue alive false false 1
                { queue := [], trace := tr }).2).2).2,
          current_pid := -1 }).current_pid) = [1, 2, 3, 1]) ∧
    (∀ w : World, w.queue ≠ [] → (pids w.queue).Nodup → (∀ e ∈ w.queue, live alive e) →
      ∀ k : Nat, 1 ≤ k →
        (pids w.queue)[(k - 1) % w.queue.length]?
          = some (run_steps alive k { world := w, current_pid := -1 }).current_pid) ∧
    (∀ w : World, w.queue ≠ [] → (pids w.queue).Nodup → (∀ e ∈ w.queue, live alive e) →
      ∀ p ∈ pids w.queue, ∃ k : Nat, 1 ≤ k ∧ k ≤ w.queue.length ∧
        (run_steps alive k { world := w, current_pid := -1 }).current_pid = p) := by
  refine ⟨?_, ?_, ?_⟩
  · intro a1 a2 a3 tr
    generalize hw : (add_process_to_queue alive false false 3
            (add_process_to_queue alive false false 2
              (add_process_to_queue alive false false 1
                { queue := [], trace := tr }).2).2).2 = w
    have hq : w.queue = [⟨1, .S_WAITING⟩, ⟨2, .S_WAITING⟩, ⟨3, .S_WAITING⟩] := by
      rw [← hw]
      rfl
    have hne : w.queue ≠ [] := by rw [hq]; simp
    have hnd : (pids w.queue).Nodup := by rw [hq]; decide
    have hl : ∀ e ∈ w.queue, live alive e := by
      intro e he
      rw [hq] at he
      simp only [List.mem_cons, List.mem_singleton, List.not_mem_nil, or_false] at he
      rcases he with h | h | h <;> subst h
      · exact ⟨a1, by simp⟩
      · exact ⟨a2, by simp⟩
      · exact ⟨a3, by simp⟩
    have k1 := run_steps_current alive hv w hne hnd hl 1 (by omega)
    have k2 := run_steps_current alive hv w hne hnd hl 2 (by omega)
    have k3 := run_steps_current alive hv w hne hnd hl 3 (by omega)
    have k4 := run_steps_current alive hv w hne hnd hl 4 (by omega)
    rw [hq] at k1 k2 k3 k4
    simp [pids] at k1 k2 k3 k4
    simp [← k1, ← k2, ← k3, ← k4]
  · intro w hne hnd hl k hk
    exact run_steps_current alive hv w hne hnd hl k hk
  · intro w hne hnd hl p hp
    obtain ⟨i, hi, hip⟩ := List.getElem_of_mem hp
    have hlen : (pids w.queue).length = w.queue.length := by simp [pids]
    refine ⟨i + 1, by omega, by omega, ?_⟩
    have h := run_steps_current alive hv w hne hnd hl (i + 1) (by omega)
    rw [Nat.add_sub_cancel, Nat.mod_eq_of_lt (by omega), List.getElem?_eq_getElem hi,
      hip] at h
    exact (Option.some.inj h).symm

/-- C1 with a process facility under which exactly the non-negative ids are
alive: the four rotations after registering 1, 2, 3 select 1, 2, 3, 1; and
from the queue `[7, 8]` the fifth rotation selects `p_(4 mod 2)`. -/
theorem fifo_rotation_witness :
    [1, 2, 3, 4].map (fun k => (run_steps (fun p => decide (0 ≤ p)) k
        { world := (add_process_to_queue (fun p => decide (0 ≤ p)) false false 3
            (add_process_to_queue (fun p => decide (0 ≤ p)) false false 2
              (add_process_to_queue (fun p => decide (0 ≤ p)) false false 1
                { queue := [], trace := [] }).2).2).2,
          current_pid := -1 }).current_pid) = [1, 2, 3, 1] ∧
    (pids [(⟨7, .S_WAITING⟩ : proc), ⟨8, .S_BLOCKING⟩])[(5 - 1) % 2]?
      = some (run_steps (fun p => decide (0 ≤ p)) 5
          { world := { queue := [⟨7, .S_WAITING⟩, ⟨8, .S_BLOCKING⟩], trace := [] },
            current_pid := -1 }).current_pid :=
  ⟨(fifo_rotation (fun p => decide (0 ≤ p))
      (by intro p hp; simp only [decide_eq_false_iff_not]; omega)).1
      (by decide) (by decide) (by decide) [],
   (fifo_rotation (fun p => decide (0 ≤ p))
      (by intro p hp; simp only [decide_eq_false_iff_not]; omega)).2.1
      { queue := [⟨7, .S_WAITING⟩, ⟨8, .S_BLOCKING⟩], trace := [] }
      (by simp) (by decide)
      (by
        intro e he
        simp only [List.mem_cons, List.mem_singleton, List.not_mem_nil, or_false] at he
        rcases he with h | h <;> subst h <;> exact ⟨by decide, by decide⟩)
      5 (by decide)⟩

/-! ## Dead processes -/

/-- C3, as stated, fails when no registered process is alive: the dead id 2
is neither marked terminated by the rotation step nor removed by the
following `remove_terminated_processes_from_queue`. -/
theorem dead_entry_kept_when_nothing_runnable :
    (static_round_robin_scheduling (fun _ => false) no_faults
        { world := { queue := [⟨2, .S_WAITING⟩], trace := [] }, current_pid := -1 }).2.world.queue
      = [⟨2, .S_WAITING⟩] ∧
    (2 : Int) ∈ pids (remove_terminated_processes_from_queue false
        (static_round_robin_scheduling (fun _ => false) no_faults
          { world := { queue := [⟨2, .S_WAITING⟩], trace := [] },
            current_pid := -1 }).2.world).2.queue := by
  decide

/-- C3, amended: let the process facility (finding no task for a negative id)
report `d` dead.  No rotation step without failure sets the current id to `d`
(for `d` other than `-1`, which means "no current id").  A rotation step
without failure selects a process if and only if the queue, once its terminated
entries are dropped and the current id is appended, holds an alive process; when
it does, every descriptor of `d` left in the queue is marked `S_TERMINATED`, and
`d` is absent from the queue after the following
`remove_terminated_processes_from_queue`. -/
theorem death_eviction (alive : Int → Bool) (hv : valid_oracle alive) (s : Sched)
    (d : Int) (hd : alive d = false) :
    ((static_round_robin_scheduling alive no_faults s).2.current_pid = d → d = -1) ∧
    ((static_round_robin_scheduling alive no_faults s).2.current_pid ≠ -1
      ↔ ∃ e ∈ demoted s, alive e.pid = true) ∧
    ((static_round_robin_scheduling alive no_faults s).2.current_pid ≠ -1 →
      (∀ e ∈ (static_round_robin_scheduling alive no_faults s).2.world.queue,
        e.pid = d → e.state = .S_TERMINATED) ∧
      d ∉ pids (remove_terminated_processes_from_queue false
        (static_round_robin_scheduling alive no_faults s).2.world).2.queue) := by
  have h1 := valid_oracle_invalid_pid hv
  have hcur := step_current_pid alive hv s
  refine ⟨?_, ?_, ?_⟩
  · intro h
    rw [hcur] at h
    rcases first_alive_cases alive (demoted s) with ⟨h2, _⟩ | ⟨h2, _⟩
    · rw [← h, h2]; rfl
    · rw [h, hd] at h2
      exact Bool.noConfusion h2
  · rw [hcur]
    have := first_alive_eq_invalid_iff alive h1 (demoted s)
    constructor
    · intro hne
      by_contra hcon
      apply hne
      apply this.mpr
      intro e he
      cases hae : alive e.pid
      · rfl
      · exact absurd ⟨e, he, hae⟩ hcon
    · rintro ⟨e, he, hae⟩ heq
      have := this.mp heq e he
      rw [this] at hae
      exact Bool.noConfusion hae
  · intro hsel
    have hq := step_queue alive hv s
    rw [hcur] at hsel
    rw [if_neg hsel] at hq
    have hmark : ∀ e ∈ (static_round_robin_scheduling alive no_faults s).2.world.queue,
        e.pid = d → e.state = .S_TERMINATED := by
      intro e he hed
      rw [hq] at he
      have he2 := (List.mem_filter.mp he).1
      obtain ⟨e0, _, he0⟩ := List.mem_map.mp he2
      have hpid : e0.pid = d := by
        rw [← hed, ← he0]
        unfold updated
        split_ifs <;> rfl
      rw [← he0]
      by_cases hn : d = first_alive alive (demoted s)
      · simp [updated, hpid, ← hn, hd]
      · simp [updated, hpid, hd, hn]
    refine ⟨hmark, ?_⟩
    simp only [remove_terminated_processes_from_queue, remove_terminated_loop_eq_filter,
      Bool.false_eq_true, if_false]
    intro hmem
    simp only [pids, List.mem_map] at hmem
    obtain ⟨e, he, hed⟩ := hmem
    obtain ⟨he1, he2⟩ := List.mem_filter.mp he
    have := hmark e he1 hed
    simp [this] at he2

/-- C3 amended, at the queue `[1, 2, 3]` when 2 is dead and 1, 3 are alive:
the step selects 1, and 2 is gone after the following reap. -/
theorem death_eviction_witness :
    (2 : Int) ∉ pids (remove_terminated_processes_from_queue false
        (static_round_robin_scheduling (fun p => decide (p = 1 ∨ p = 3)) no_faults
          { world := { queue := [⟨1, .S_WAITING⟩, ⟨2, .S_WAITING⟩, ⟨3, .S_WAITING⟩],
                       trace := [] },
            current_pid := -1 }).2.world).2.queue :=
  ((death_eviction (fun p => decide (p = 1 ∨ p = 3))
      (by intro p hp; simp only [decide_eq_false_iff_not]; omega)
      { world := { queue := [⟨1, .S_WAITING⟩, ⟨2, .S_WAITING⟩, ⟨3, .S_WAITING⟩],
                   trace := [] },
        current_pid := -1 } 2 (by decide)).2.2 (by decide)).2

/-! ## Failures inside a rotation step -/

theorem step_handed_queue (alive : Int → Bool) (f : Faults) (s : Sched) :
    (if s.current_pid ≠ -1 then
        (add_process_to_queue alive f.add_kmalloc f.add_down s.current_pid
          (remove_terminated_processes_from_queue f.reap_down s.world).2).2
      else (remove_terminated_processes_from_queue f.reap_down s.world).2).queue
      = demoted_under f s := by
  by_cases hc : s.current_pid = -1 <;> cases h1 : f.reap_down <;>
    cases h2 : f.add_kmalloc <;> cases h3 : f.add_down <;>
    simp [demoted_under, hc, h1, h2, h3, add_process_to_queue,
      remove_terminated_processes_from_queue, remove_terminated_loop_eq_filter]

/-- C4, as stated, fails: here the lock acquisition of
`remove_terminated_processes_from_queue` is interrupted (the call returns
`-ERESTARTSYS`), yet the step goes on, probes and resumes process 1 and
changes the current id from `-1` to 1. -/
theorem tick_not_abandoned_on_error :
    (remove_terminated_processes_from_queue true
        { queue := [⟨1, .S_WAITING⟩], trace := [] }).1 = -ERESTARTSYS ∧
    (static_round_robin_scheduling (fun p => decide (0 ≤ p))
        { no_faults with reap_down := true }
        { world := { queue := [⟨1, .S_WAITING⟩], trace := [] }, current_pid := -1 }).2
      = { world := { queue := [],
                     trace := [.probe 1, .apply 1 .S_RUNNING, .kill 1 .SIGCONT] },
          current_pid := 1 } := by
  decide

/-- C4, amended: a rotation step does not look at what
`remove_terminated_processes_from_queue`, `add_process_to_queue`,
`change_process_state_in_queue` and `remove_process_from_queue` return.  A
call among them that fails (lock interrupted, or no memory) leaves the queue as
it was and the step goes on with the next sub-step.  Provided the lock of
`get_first_process_in_queue` is acquired, whatever else failed the step returns
0, sets the current id to the first alive id of the queue handed over by the
earlier sub-steps (`-1` if there is none), and then updates and removes that
id in the queue unless the respective call failed. -/
theorem step_ignores_errors (alive : Int → Bool) (hv : valid_oracle alive) (f : Faults)
    (hf : f.first_down = false) (s : Sched) :
    (static_round_robin_scheduling alive f s).1 = 0 ∧
    (static_round_robin_scheduling alive f s).2.current_pid
      = first_alive alive (demoted_under f s) ∧
    (static_round_robin_scheduling alive f s).2.world.queue
      = if first_alive alive (demoted_under f s) = -1 then demoted_under f s
        else if f.change_down then
          (if f.remove_down then demoted_under f s
           else (demoted_under f s).filter
             (fun e => decide (e.pid ≠ first_alive alive (demoted_under f s))))
        else
          (if f.remove_down then
             (demoted_under f s).map
               (updated alive (first_alive alive (demoted_under f s)) .S_RUNNING)
           else ((demoted_under f s).map
               (updated alive (first_alive alive (demoted_under f s)) .S_RUNNING)).filter
             (fun e => decide (e.pid ≠ first_alive alive (demoted_under f s)))) := by
  have h1 := valid_oracle_invalid_pid hv
  have h2 := first_alive_ne_all_reg_pids alive hv (demoted_under f s)
  have hW := step_handed_queue alive f s
  simp only [static_round_robin_scheduling]
  generalize (if s.current_pid ≠ -1 then
        (add_process_to_queue alive f.add_kmalloc f.add_down s.current_pid
          (remove_terminated_processes_from_queue f.reap_down s.world).2).2
      else (remove_terminated_processes_from_queue f.reap_down s.world).2) = W at hW ⊢
  rw [← hW] at h2 ⊢
  have hg : (get_first_process_in_queue alive f.first_down W).1 = first_alive alive W.queue := by
    simp [hf, get_first_process_in_queue, get_first_loop_invalid alive h1]
  have hgq : (get_first_process_in_queue alive f.first_down W).2.queue = W.queue := by
    simp [hf, get_first_process_in_queue]
  refine ⟨trivial, hg, ?_⟩
  rw [hg]
  by_cases hn : first_alive alive W.queue = -1
  · simp [hn, hgq]
  · cases hc : f.change_down <;> cases hr : f.remove_down <;> cases hp : f.print_down <;>
      simp [hn, hgq, h2, change_process_state_in_queue, change_one_loop_queue,
        remove_process_from_queue, remove_process_loop_eq_filter, print_process_queue]

/-- C4 amended, with the lock of the reap interrupted and process 1 waiting. -/
theorem step_ignores_errors_witness :
    (static_round_robin_scheduling (fun p => decide (0 ≤ p))
        { no_faults with reap_down := true }
        { world := { queue := [⟨1, .S_WAITING⟩], trace := [] }, current_pid := -1 }).2.current_pid
      = first_alive (fun p => decide (0 ≤ p))
          (demoted_under { no_faults with reap_down := true }
            { world := { queue := [⟨1, .S_WAITING⟩], trace := [] }, current_pid := -1 }) :=
  (step_ignores_errors (fun p => decide (0 ≤ p))
    (by intro p hp; simp only [decide_eq_false_iff_not]; omega)
    { no_faults with reap_down := true } rfl
    { world := { queue := [⟨1, .S_WAITING⟩], trace := [] }, current_pid := -1 }).2.1

/-- The remaining failure: when the lock acquisition of
`get_first_process_in_queue` is interrupted, its error code is stored as the
current id. -/
theorem step_stores_error_code (alive : Int → Bool) (f : Faults)
    (hf : f.first_down = true) (s : Sched) :
    (static_round_robin_scheduling alive f s).2.current_pid = -ERESTARTSYS := by
  simp [static_round_robin_scheduling, get_first_process_in_queue, hf]

/-- C15: when the queue is empty and there is no current id, a rotation step
in which `get_first_process_in_queue` acquires its lock (whatever the other
lock acquisitions do) returns 0, leaves the queue empty and the current id
unset, and makes no call to the process facility. -/
theorem empty_registry_rotation (alive : Int → Bool) (f : Faults)
    (hf : f.first_down = false) (tr : List Event) :
    static_round_robin_scheduling alive f
        { world := { queue := [], trace := tr }, current_pid := -1 }
      = (0, { world := { queue := [], trace := tr }, current_pid := -1 }) := by
  cases h1 : f.reap_down <;>
    simp [static_round_robin_scheduling, hf, h1, remove_terminated_processes_from_queue,
      remove_terminated_loop, get_first_process_in_queue, get_first_loop, INVALID_PID]

/-- C15 with no failure at all and every process alive. -/
theorem empty_registry_rotation_witness :
    static_round_robin_scheduling (fun _ => true) no_faults
        { world := { queue := [], trace := [] }, current_pid := -1 }
      = (0, { world := { queue := [], trace := [] }, current_pid := -1 }) :=
  empty_registry_rotation (fun _ => true) no_faults rfl []

/-! ## What a rotation step keeps -/

theorem mem_demoted (s : Sched) (e : proc) :
    e ∈ demoted s ↔
      (e ∈ s.world.queue ∧ e.state ≠ .S_TERMINATED) ∨
      (s.current_pid ≠ -1 ∧ e = ⟨s.current_pid, .S_WAITING⟩) := by
  unfold demoted
  by_cases hc : s.current_pid = -1 <;> simp [hc, List.mem_filter]

theorem demoted_not_terminated (s : Sched) (e : proc) (he : e ∈ demoted s) :
    e.state ≠ .S_TERMINATED := by
  rcases (mem_demoted s e).mp he with h | h
  · exact h.2
  · rw [h.2]; simp

theorem updated_pid (alive : Int → Bool) (t : Int) (st : process_state) (e : proc) :
    (updated alive t st e).pid = e.pid := by
  unfold updated
  split_ifs <;> rfl

theorem tracked_live_iff_demoted (alive : Int → Bool) (hv : valid_oracle alive) (s : Sched)
    (p : Int) : tracked_live alive s p ↔ (alive p = true ∧ p ∈ pids (demoted s)) := by
  unfold tracked_live
  constructor
  · rintro ⟨ha, h | ⟨e, he, hep, hes⟩⟩
    · refine ⟨ha, ?_⟩
      simp only [pids, List.mem_map]
      refine ⟨⟨s.current_pid, .S_WAITING⟩, (mem_demoted s _).mpr (Or.inr ⟨?_, rfl⟩), h⟩
      rw [h]
      exact alive_ne_invalid hv ha
    · refine ⟨ha, ?_⟩
      simp only [pids, List.mem_map]
      exact ⟨e, (mem_demoted s e).mpr (Or.inl ⟨he, hes⟩), hep⟩
  · rintro ⟨ha, hm⟩
    refine ⟨ha, ?_⟩
    simp only [pids, List.mem_map] at hm
    obtain ⟨e, he, hep⟩ := hm
    rcases (mem_demoted s e).mp he with h | h
    · exact Or.inr ⟨e, h.1, hep, h.2⟩
    · left
      rw [← hep, h.2]

theorem step_queue_origin (alive : Int → Bool) (hv : valid_oracle alive) (s : Sched)
    (e : proc) (he : e ∈ (static_round_robin_scheduling alive no_faults s).2.world.queue) :
    ∃ e0 ∈ demoted s, e0.pid = e.pid ∧
      (e = e0 ∨ (e.state = .S_TERMINATED ∧ alive e0.pid = false)) := by
  rw [step_queue alive hv] at he
  by_cases hn : first_alive alive (demoted s) = -1
  · rw [if_pos hn] at he
    exact ⟨e, he, rfl, Or.inl rfl⟩
  · rw [if_neg hn] at he
    obtain ⟨he1, he2⟩ := List.mem_filter.mp he
    obtain ⟨e0, he0, heq⟩ := List.mem_map.mp he1
    refine ⟨e0, he0, by rw [← heq, updated_pid], ?_⟩
    have he2b : e0.pid ≠ first_alive alive (demoted s) := by
      have : e.pid ≠ first_alive alive (demoted s) := by simpa using he2
      rwa [← heq, updated_pid] at this
    rw [← heq]
    cases ha : alive e0.pid <;> simp [updated, he2b, ha]

theorem step_current_not_in_queue (alive : Int → Bool) (hv : valid_oracle alive) (s : Sched)
    (hsel : (static_round_robin_scheduling alive no_faults s).2.current_pid ≠ -1) :
    (static_round_robin_scheduling alive no_faults s).2.current_pid
      ∉ pids (static_round_robin_scheduling alive no_faults s).2.world.queue := by
  rw [step_current_pid alive hv] at hsel ⊢
  rw [step_queue alive hv, if_neg hsel]
  simp [pids]

theorem step_keeps_alive_entry (alive : Int → Bool) (hv : valid_oracle alive) (s : Sched)
    (e0 : proc) (he0 : e0 ∈ demoted s) (ha : alive e0.pid = true)
    (hne : e0.pid ≠ (static_round_robin_scheduling alive no_faults s).2.current_pid) :
    e0 ∈ (static_round_robin_scheduling alive no_faults s).2.world.queue := by
  rw [step_current_pid alive hv] at hne
  rw [step_queue alive hv]
  by_cases hn : first_alive alive (demoted s) = -1
  · rw [if_pos hn]
    exact he0
  · rw [if_neg hn]
    apply List.mem_filter.mpr
    refine ⟨List.mem_map.mpr ⟨e0, he0, ?_⟩, by simpa using hne⟩
    simp [updated, hne, ha]

/-- C16: under a process facility that finds no task for a negative id, one
rotation step without failure keeps the set of live ids tracked by the
scheduler.  An id is tracked and live when its process is alive and it is the
current id or the id of a descriptor not marked terminated; the queue may
hold dead and terminated entries.  When, in addition, every descriptor marked
terminated before the step belongs to a dead process, the same holds for the
set of alive ids among all ids of the queue together with the current id. -/
theorem live_ids_preserved (alive : Int → Bool) (hv : valid_oracle alive) (s : Sched)
    (p : Int) :
    (tracked_live alive s p
      ↔ tracked_live alive (static_round_robin_scheduling alive no_faults s).2 p) ∧
    ((∀ e ∈ s.world.queue, e.state = .S_TERMINATED → alive e.pid = false) →
      ((alive p = true ∧ (s.current_pid = p ∨ p ∈ pids s.world.queue))
        ↔ (alive p = true ∧
            ((static_round_robin_scheduling alive no_faults s).2.current_pid = p ∨
              p ∈ pids (static_round_robin_scheduling alive no_faults s).2.world.queue)))) := by
  have hcur := step_current_pid alive hv s
  -- the set after the step, in both readings, is the set of alive ids of `demoted s`
  have hafter1 : (alive p = true ∧
        ((static_round_robin_scheduling alive no_faults s).2.current_pid = p ∨
          p ∈ pids (static_round_robin_scheduling alive no_faults s).2.world.queue))
      → (alive p = true ∧ p ∈ pids (demoted s)) := by
    rintro ⟨ha, h | h⟩
    · refine ⟨ha, ?_⟩
      rw [hcur] at h
      rcases first_alive_cases alive (demoted s) with ⟨h2, _⟩ | ⟨_, h2⟩
      · rw [h] at h2
        exact absurd h2 (alive_ne_invalid hv ha)
      · rwa [h] at h2
    · refine ⟨ha, ?_⟩
      simp only [pids, List.mem_map] at h ⊢
      obtain ⟨e, he, hep⟩ := h
      obtain ⟨e0, he0, hpid, _⟩ := step_queue_origin alive hv s e he
      exact ⟨e0, he0, hpid.trans hep⟩
  have hafter2 : (alive p = true ∧ p ∈ pids (demoted s))
      → tracked_live alive (static_round_robin_scheduling alive no_faults s).2 p := by
    rintro ⟨ha, hm⟩
    refine ⟨ha, ?_⟩
    simp only [pids, List.mem_map] at hm
    obtain ⟨e0, he0, hep⟩ := hm
    by_cases hc : (static_round_robin_scheduling alive no_faults s).2.current_pid = p
    · exact Or.inl hc
    · right
      refine ⟨e0, step_keeps_alive_entry alive hv s e0 he0 (by rw [hep]; exact ha) ?_, hep,
        demoted_not_terminated s e0 he0⟩
      rw [hep]
      exact fun h => hc h.symm
  have hafter3 : tracked_live alive (static_round_robin_scheduling alive no_faults s).2 p
      → (alive p = true ∧
        ((static_round_robin_scheduling alive no_faults s).2.current_pid = p ∨
          p ∈ pids (static_round_robin_scheduling alive no_faults s).2.world.queue)) := by
    rintro ⟨ha, h | ⟨e, he, hep, _⟩⟩
    · exact ⟨ha, Or.inl h⟩
    · exact ⟨ha, Or.inr (by simp only [pids, List.mem_map]; exact ⟨e, he, hep⟩)⟩
  constructor
  · rw [tracked_live_iff_demoted alive hv s p]
    exact ⟨hafter2, fun h => hafter1 (hafter3 h)⟩
  · intro hcons
    have hbefore : (alive p = true ∧ (s.current_pid = p ∨ p ∈ pids s.world.queue))
        ↔ tracked_live alive s p := by
      unfold tracked_live
      constructor
      · rintro ⟨ha, h | h⟩
        · exact ⟨ha, Or.inl h⟩
        · simp only [pids, List.mem_map] at h
          obtain ⟨e, he, hep⟩ := h
          refine ⟨ha, Or.inr ⟨e, he, hep, ?_⟩⟩
          intro hT
          have := hcons e he hT
          rw [hep, ha] at this
          exact Bool.noConfusion this
      · rintro ⟨ha, h | ⟨e, he, hep, _⟩⟩
        · exact ⟨ha, Or.inl h⟩
        · exact ⟨ha, Or.inr (by simp only [pids, List.mem_map]; exact ⟨e, he, hep⟩)⟩
    rw [hbefore, tracked_live_iff_demoted alive hv s p]
    exact ⟨fun h => hafter3 (hafter2 h), hafter1⟩

/-- C16 at a queue with a dead entry (2) and a terminated entry (4): the live
id 3 is still tracked after the step. -/
theorem live_ids_preserved_witness :
    tracked_live (fun p => decide (p = 1 ∨ p = 3)) (static_round_robin_scheduling
      (fun p => decide (p = 1 ∨ p = 3)) no_faults
      { world := { queue := [⟨2, .S_WAITING⟩, ⟨4, .S_TERMINATED⟩, ⟨3, .S_WAITING⟩],
                   trace := [] },
        current_pid := 1 }).2 3 :=
  ((live_ids_preserved (fun p => decide (p = 1 ∨ p = 3))
      (by intro p hp; simp only [decide_eq_false_iff_not]; omega)
      { world := { queue := [⟨2, .S_WAITING⟩, ⟨4, .S_TERMINATED⟩, ⟨3, .S_WAITING⟩],
                   trace := [] },
        current_pid := 1 } 3).1).mp
    ⟨by decide, Or.inr ⟨⟨3, .S_WAITING⟩, by decide, rfl, by decide⟩⟩

/-- C17: in every state reachable from the empty registry with no current id
by registrations and rotation steps without failure, no descriptor of the
queue has state `S_RUNNING`; and right after any further rotation step the
current id, when set, is the id of no descriptor of the queue.  So the only
process logically running is the one named by the current id. -/
theorem running_out_of_registry (s : Sched) (hr : Reachable s) :
    (∀ e ∈ s.world.queue, e.state ≠ .S_RUNNING) ∧
    (∀ alive : Int → Bool, valid_oracle alive →
      (static_round_robin_scheduling alive no_faults s).2.current_pid ≠ -1 →
      (static_round_robin_scheduling alive no_faults s).2.current_pid
        ∉ pids (static_round_robin_scheduling alive no_faults s).2.world.queue) := by
  refine ⟨?_, fun alive hv hsel => step_current_not_in_queue alive hv s hsel⟩
  induction hr with
  | init tr => intro e he; cases he
  | enqueue alive hv pid s _ ih =>
    intro e he
    have hq : (add_process_to_queue alive false false pid s.world).2.queue
        = s.world.queue ++ [(⟨pid, .S_WAITING⟩ : proc)] := rfl
    simp only at he
    rw [hq] at he
    rcases List.mem_append.mp he with h | h
    · exact ih e h
    · rw [List.mem_singleton] at h
      rw [h]
      simp
  | step alive hv s _ ih =>
    intro e he
    obtain ⟨e0, he0, _, h | h⟩ := step_queue_origin alive hv s e he
    · rw [h]
      rcases (mem_demoted s e0).mp he0 with h2 | h2
      · exact ih e0 h2.1
      · rw [h2.2]; simp
    · rw [h.1]
      simp

/-- C17 at the state reached by registering 1 and 2: after a rotation the
current id is not in the queue. -/
theorem running_out_of_registry_witness :
    (static_round_robin_scheduling (fun p => decide (0 ≤ p)) no_faults
        { world := (add_process_to_queue (fun p => decide (0 ≤ p)) false false 2
            (add_process_to_queue (fun p => decide (0 ≤ p)) false false 1
              { queue := [], trace := [] }).2).2,
          current_pid := -1 }).2.current_pid
      ∉ pids (static_round_robin_scheduling (fun p => decide (0 ≤ p)) no_faults
        { world := (add_process_to_queue (fun p => decide (0 ≤ p)) false false 2
            (add_process_to_queue (fun p => decide (0 ≤ p)) false false 1
              { queue := [], trace := [] }).2).2,
          current_pid := -1 }).2.world.queue :=
  (running_out_of_registry
    { world := (add_process_to_queue (fun p => decide (0 ≤ p)) false false 2
        (add_process_to_queue (fun p => decide (0 ≤ p)) false false 1
          { queue := [], trace := [] }).2).2,
      current_pid := -1 }
    (Reachable.enqueue (fun p => decide (0 ≤ p))
      (by intro p hp; simp only [decide_eq_false_iff_not]; omega) 2
      { world := (add_process_to_queue (fun p => decide (0 ≤ p)) false false 1
          { queue := [], trace := [] }).2, current_pid := -1 }
      (Reachable.enqueue (fun p => decide (0 ≤ p))
        (by intro p hp; simp only [decide_eq_false_iff_not]; omega) 1
        { world := { queue := [], trace := [] }, current_pid := -1 }
        (Reachable.init [])))).2 (fun p => decide (0 ≤ p))
    (by intro p hp; simp only [decide_eq_false_iff_not]; omega) (by decide)

/-! ## Registration and the process facility -/

/-- C23: `add_process_to_queue pid` asks the process facility to apply
`S_WAITING` to `pid` before the lock acquisition: when the acquisition is
interrupted the call returns `-ERESTARTSYS`, the queue is unchanged, and the
trace has gained exactly that one request (with its stop signal when the
process exists), the same calls as when the acquisition succeeds.  Only when
the allocation fails does the call return (`-ENOMEM`) without any call to the
process facility. -/
theorem add_process_to_queue_pauses_before_lock (alive : Int → Bool) (pid : Int) (w : World) :
    (add_process_to_queue alive false true pid w).1 = -ERESTARTSYS ∧
    (add_process_to_queue alive false true pid w).2.queue = w.queue ∧
    (add_process_to_queue alive false true pid w).2.trace
      = w.trace ++ (Event.apply pid .S_WAITING ::
          (if alive pid then [Event.kill pid .SIGSTOP] else [])) ∧
    (add_process_to_queue alive false true pid w).2.trace
      = (add_process_to_queue alive false false pid w).2.trace ∧
    ((add_process_to_queue alive false true pid w).2.trace.count (Event.apply pid .S_WAITING)
      = w.trace.count (Event.apply pid .S_WAITING) + 1) ∧
    (∀ b : Bool, add_process_to_queue alive true b pid w = (-ENOMEM, w)) := by
  have ht : (add_process_to_queue alive false true pid w).2.trace
      = w.trace ++ (Event.apply pid .S_WAITING ::
          (if alive pid then [Event.kill pid .SIGSTOP] else [])) := by
    cases h : alive pid <;> simp [add_process_to_queue, task_status_change, h]
  refine ⟨rfl, rfl, ht, rfl, ?_, fun b => rfl⟩
  rw [ht]
  cases h : alive pid <;> simp [List.count_cons]

/-- C21: evaluation at a failing input.  The text `4294967297` (`2^32 + 1`) is
parsed as that `long` value; the write succeeds and reports the byte count
10, and the descriptor appended has the id 1. -/
theorem write_registers_truncated_id :
    process_sched_add_module_write (fun _ => true) false false (some 4294967297) 10
        { queue := [], trace := [] }
      = (10, { queue := [⟨1, .S_WAITING⟩],
               trace := [.apply 1 .S_WAITING, .kill 1 .SIGSTOP] }) := by
  decide

/-- What the write handler registers when the text is parsed as `n` and the
registration succeeds: the id `long_to_int n`, which is `n` exactly when `n`
fits the 32-bit `int`. -/
theorem write_registers_long_to_int (alive : Int → Bool) (n count : Int) (w : World) :
    (process_sched_add_module_write alive false false (some n) count w).1 = count ∧
    (process_sched_add_module_write alive false false (some n) count w).2.queue
      = w.queue ++ [⟨long_to_int n, .S_WAITING⟩] ∧
    (long_to_int n = n ↔ (-2 ^ 31 ≤ n ∧ n < 2 ^ 31)) := by
  refine ⟨?_, ?_, ?_⟩
  · simp [process_sched_add_module_write, add_process_to_queue]
  · simp [process_sched_add_module_write, add_process_to_queue]
  · unfold long_to_int
    constructor
    · intro h
      have h1 := Int.emod_nonneg (n + 2 ^ 31) (by norm_num : (2 ^ 32 : Int) ≠ 0)
      have h2 := Int.emod_lt_of_pos (n + 2 ^ 31) (by norm_num : (0 : Int) < 2 ^ 32)
      constructor <;> omega
    · rintro ⟨h1, h2⟩
      rw [Int.emod_eq_of_lt (by omega) (by omega)]
      omega

/-! ## Directives of a rotation step -/

theorem directives_append (a b : List Event) :
    directives (a ++ b) = directives a ++ directives b := by
  simp [directives]

theorem directives_get_first_loop (alive : Int → Bool) (q : List proc) (p : Int) :
    directives (get_first_loop alive q p).2 = [] := by
  induction q generalizing p with
  | nil => rfl
  | cons tmp rest ih =>
    by_cases hp : p = INVALID_PID
    · have hprobe : directives [Event.probe tmp.pid] = [] := rfl
      cases ha : alive tmp.pid
      · have : (get_first_loop alive (tmp :: rest) p).2
            = [Event.probe tmp.pid] ++ (get_first_loop alive rest p).2 := by
          simp [get_first_loop, hp, is_task_exists, ha]
        rw [this, directives_append, ih, hprobe]
        rfl
      · have : (get_first_loop alive (tmp :: rest) p).2
            = [Event.probe tmp.pid] ++ (get_first_loop alive rest tmp.pid).2 := by
          simp [get_first_loop, hp, is_task_exists, ha]
        rw [this, directives_append, ih, hprobe]
        rfl
    · simp [get_first_loop, hp, ih]

theorem directives_calls_for_others (alive : Int → Bool) (t : Int) (st : process_state)
    (l : List proc) (h : ∀ e ∈ l, e.pid ≠ t) :
    directives (l.flatMap (calls_for alive t st)) = [] := by
  induction l with
  | nil => rfl
  | cons a rest ih =>
    have ha : a.pid ≠ t := h a (List.mem_cons_self a rest)
    rw [List.flatMap_cons, directives_append, ih (fun e he => h e (List.mem_cons_of_mem a he))]
    simp [calls_for, ha, directives]

theorem step_trace (alive : Int → Bool) (hv : valid_oracle alive) (s : Sched) :
    (static_round_robin_scheduling alive no_faults s).2.world.trace
      = s.world.trace ++
        (if s.current_pid ≠ -1 then (task_status_change alive s.current_pid .S_WAITING).2
         else []) ++
        (get_first_loop alive (demoted s) INVALID_PID).2 ++
        (if first_alive alive (demoted s) = -1 then []
         else (demoted s).flatMap
           (calls_for alive (first_alive alive (demoted s)) .S_RUNNING)) := by
  have h1 := valid_oracle_invalid_pid hv
  have h2 := first_alive_ne_all_reg_pids alive hv (demoted s)
  by_cases hc : s.current_pid = -1
  · by_cases hn : first_alive alive (demoted s) = -1
    · rw [if_pos hn]
      simp [demoted, hc] at hn ⊢
      simp [static_round_robin_scheduling, no_faults, hc,
        remove_terminated_processes_from_queue, remove_terminated_loop_eq_filter,
        get_first_process_in_queue, get_first_loop_invalid alive h1, hn]
    · rw [if_neg hn]
      simp [demoted, hc] at hn h2 ⊢
      simp [static_round_robin_scheduling, no_faults, hc,
        remove_terminated_processes_from_queue, remove_terminated_loop_eq_filter,
        get_first_process_in_queue, get_first_loop_invalid alive h1, hn, h2,
        change_process_state_in_queue, change_one_loop_calls,
        remove_process_from_queue, print_process_queue]
  · by_cases hn : first_alive alive (demoted s) = -1
    · rw [if_pos hn]
      simp [demoted, hc] at hn ⊢
      simp [static_round_robin_scheduling, no_faults, hc,
        remove_terminated_processes_from_queue, remove_terminated_loop_eq_filter,
        add_process_to_queue,
        get_first_process_in_queue, get_first_loop_invalid alive h1, hn]
    · rw [if_neg hn]
      simp [demoted, hc] at hn h2 ⊢
      simp [static_round_robin_scheduling, no_faults, hc,
        remove_terminated_processes_from_queue, remove_terminated_loop_eq_filter,
        add_process_to_queue,
        get_first_process_in_queue, get_first_loop_invalid alive h1, hn, h2,
        change_process_state_in_queue, change_one_loop_calls,
        remove_process_from_queue, print_process_queue]

/-- C22, as stated, fails when the current id is also registered at the head
of the queue (here 7, registered again while it was running): the step asks
the process facility twice to resume 7. -/
theorem resume_sent_twice_when_current_is_head :
    (pids [(⟨7, .S_WAITING⟩ : proc)]).Nodup ∧
    directives (static_round_robin_scheduling (fun p => decide (0 ≤ p)) no_faults
        { world := { queue := [⟨7, .S_WAITING⟩], trace := [] }, current_pid := 7 }).2.world.trace
      = [.apply 7 .S_WAITING, .kill 7 .SIGSTOP,
         .apply 7 .S_RUNNING, .kill 7 .SIGCONT,
         .apply 7 .S_RUNNING, .kill 7 .SIGCONT] := by
  decide

/-- C22, amended: for a queue of live entries (process alive, not marked
terminated) with pairwise distinct ids and an alive (hence set) current id `c`
that is not the id at the head of the queue, one rotation step without
failure adds to the trace, apart from liveness probes, exactly one request to
apply `S_WAITING` to `c` with its `SIGSTOP`, followed by exactly one request to
apply `S_RUNNING` to the selected id `n` with its `SIGCONT`.  When the queue is
empty the selected id is `c` itself, paused first and resumed last. -/
theorem rotation_directives (alive : Int → Bool) (hv : valid_oracle alive)
    (q : List proc) (tr : List Event) (c : Int)
    (hnd : (pids q).Nodup) (hl : ∀ e ∈ q, live alive e)
    (hca : alive c = true) (hhead : ∀ h ∈ q.head?, h.pid ≠ c) :
    directives (static_round_robin_scheduling alive no_faults
        { world := { queue := q, trace := tr }, current_pid := c }).2.world.trace
      = directives tr ++
        [Event.apply c .S_WAITING, Event.kill c .SIGSTOP,
         Event.apply (static_round_robin_scheduling alive no_faults
            { world := { queue := q, trace := tr }, current_pid := c }).2.current_pid
            .S_RUNNING,
         Event.kill (static_round_robin_scheduling alive no_faults
            { world := { queue := q, trace := tr }, current_pid := c }).2.current_pid
            .SIGCONT] ∧
    (q = [] → (static_round_robin_scheduling alive no_faults
        { world := { queue := q, trace := tr }, current_pid := c }).2.current_pid = c) := by
  have hc : c ≠ -1 := alive_ne_invalid hv hca
  have hd := demoted_of_live alive q tr c hl
  rw [if_pos hc] at hd
  have hcur := step_current_pid alive hv
    { world := { queue := q, trace := tr }, current_pid := c }
  have htr := step_trace alive hv
    { world := { queue := q, trace := tr }, current_pid := c }
  rw [hd] at hcur htr
  simp only [ne_eq, hc, not_false_eq_true, if_true] at htr
  -- the queue handed to the lookup is `h :: rest`, with `h` alive and no other entry of id `h.pid`
  obtain ⟨h, rest, hL, hha, hrest⟩ : ∃ h rest, q ++ [(⟨c, .S_WAITING⟩ : proc)] = h :: rest ∧
      alive h.pid = true ∧ ∀ e ∈ rest, e.pid ≠ h.pid := by
    cases q with
    | nil => exact ⟨⟨c, .S_WAITING⟩, [], rfl, hca, fun e he => by cases he⟩
    | cons a t =>
      refine ⟨a, t ++ [(⟨c, .S_WAITING⟩ : proc)], rfl, (hl a (List.mem_cons_self a t)).1, ?_⟩
      intro e he
      rcases List.mem_append.mp he with h1 | h1
      · have hnd2 := hnd
        simp only [pids, List.map_cons, List.nodup_cons, List.mem_map] at hnd2
        intro heq
        exact hnd2.1 ⟨e, h1, heq⟩
      · rw [List.mem_singleton] at h1
        rw [h1]
        exact fun heq => hhead a (by simp) heq.symm
  have hfa : first_alive alive (q ++ [(⟨c, .S_WAITING⟩ : proc)]) = h.pid := by
    rw [hL]
    simp [first_alive, List.find?, hha]
  have hn : h.pid ≠ -1 := alive_ne_invalid hv hha
  rw [hfa] at hcur htr
  rw [if_neg hn, hL] at htr
  constructor
  · rw [hcur, htr]
    simp only [directives_append, directives_get_first_loop, List.flatMap_cons,
      directives_calls_for_others alive h.pid .S_RUNNING rest hrest]
    simp [calls_for, task_status_change, hca, hha, directives]
  · intro hq
    rw [hcur]
    subst hq
    simp only [List.nil_append, List.cons.injEq] at hL
    rw [← hL.1]

/-- C22 amended, at the queue `[1, 2]` with current id 3, and at the empty
queue with current id 3. -/
theorem rotation_directives_witness :
    directives (static_round_robin_scheduling (fun p => decide (0 ≤ p)) no_faults
        { world := { queue := [⟨1, .S_WAITING⟩, ⟨2, .S_WAITING⟩], trace := [] },
          current_pid := 3 }).2.world.trace
      = [.apply 3 .S_WAITING, .kill 3 .SIGSTOP, .apply 1 .S_RUNNING, .kill 1 .SIGCONT] ∧
    (static_round_robin_scheduling (fun p => decide (0 ≤ p)) no_faults
        { world := { queue := [], trace := [] }, current_pid := 3 }).2.current_pid = 3 :=
  ⟨by
    have h := (rotation_directives (fun p => decide (0 ≤ p))
      (by intro p hp; simp only [decide_eq_false_iff_not]; omega)
      [⟨1, .S_WAITING⟩, ⟨2, .S_WAITING⟩] [] 3 (by decide)
      (by
        intro e he
        simp only [List.mem_cons, List.mem_singleton, List.not_mem_nil, or_false] at he
        rcases he with h | h <;> subst h <;> exact ⟨by decide, by decide⟩)
      (by decide) (by intro h hh; simp at hh; subst hh; decide)).1
    rw [h]
    decide,
   (rotation_directives (fun p => decide (0 ≤ p))
      (by intro p hp; simp only [decide_eq_false_iff_not]; omega)
      [] [] 3 (by decide) (by intro e he; cases he) (by decide)
      (by intro h hh; simp at hh)).2 rfl⟩

end SchedPlugin
